import Mathlib

/-!
# Verification of the ongrid grid-entity simulation core

This file is a shallow embedding, in Lean 4, of the simulation core of
`src/ongrid.ts`: the grid entity model, the rate-propagation rules, the
cycle accumulator, the resource ledger, and the raster-order entity
iterator, together with theorems settling the specification claims.

Modelling conventions:
* JavaScript `number` is modelled as `ℚ` (the spec describes the relevant
  quantities as real numbers; no claim depends on float rounding).
  Grid positions and dimensions, which the program only ever uses at
  integer values, are modelled as `Int` pairs; the cursor position, which
  is a free pixel coordinate, is a `ℚ` pair.
* Mutation of the single shared `GameState` is modelled by explicit state
  passing: every mutating function takes and returns a `GameState`.
* TypeScript `null`/`undefined` entity references are modelled as
  `Option Entity`.
* `console.error` is modelled as an append-only diagnostic sink
  `consoleErrors` carried in the state (the browser console is an
  external output channel; we record the offending kind that the
  template string would print).
* The two unbounded loops of the source (the `while (cycleProgress >= 1)`
  wrap loop and the iterator loops) are modelled with an explicit fuel
  argument computed from the state, plus lemmas showing the fuel bound is
  adequate (the loop has stabilised by then), which is exactly the
  termination content of the original loops.
* The rendering half of `gameUpdateAndRender` and the DOM wiring of
  `main` only write to the canvas; they read but never mutate the
  simulation state, so the embedded `gameUpdateAndRender` is the update
  pass (the spec marks rendering as out of scope).
-/

set_option linter.unusedVariables false
set_option linter.unnecessarySimpa false

namespace Ongrid

/-- 2D vector with integer components: grid positions and grid dimensions.
(`type v2 = {x: number, y: number}` used at integral values.) -/
structure V2 where
  x : Int
  y : Int
deriving DecidableEq, Repr

/-- 2D vector with rational components: the cursor position in pixels. -/
structure Q2 where
  x : ℚ
  y : ℚ
deriving DecidableEq, Repr

/-- The closed entity variant set of the source (`enum EntityKind`), plus a
`Corrupt` constructor standing for any enum value outside the declared set
(the "unknown entity kind" invariant violation of spec section 7). -/
inductive EntityKind where
  | None
  | Generator
  | Motor
  | Producer
  | Corrupt (code : Int)
deriving DecidableEq, Repr

/-- One grid cell's entity (`type Entity`). -/
structure Entity where
  kind : EntityKind
  currentRate : ℚ
  cycleProgress : ℚ
deriving DecidableEq, Repr

/-- `type EntityHandle`: a possibly-absent reference to an entity plus the
index and position it was resolved at. -/
structure EntityHandle where
  entity : Option Entity
  index : Int
  pos : V2
deriving DecidableEq, Repr

/-- Pointer state written by the event handlers, read by the tick. -/
structure Cursor where
  pos : Q2
  leftButtonDown : Bool
deriving DecidableEq, Repr

/-- World margins in pixels. -/
structure Margins where
  top : ℚ
  bottom : ℚ
  left : ℚ
  right : ℚ
deriving DecidableEq, Repr

/-- The shared mutable state (`type GameState`).  `storage` is the
`entities.storage` array.  `consoleErrors` models the `console.error`
output channel (each entry records the kind that the diagnostic message
interpolates); it is not a field of the TypeScript state but an external
sink made explicit. -/
structure GameState where
  lastTimestamp : ℚ
  worldDim : V2
  cursor : Cursor
  storage : List Entity
  referenceCycleDuration : ℚ
  cellDimPx : ℚ
  gridCellBorderWidthPx : ℚ
  worldMargins : Margins
  currentNumber : ℚ
  consoleErrors : List EntityKind
deriving DecidableEq, Repr

/-- `posIsInBounds(pos, bounds)`. -/
def posIsInBounds (pos bounds : V2) : Prop :=
  pos.x ≥ 0 ∧ pos.x < bounds.x ∧ pos.y ≥ 0 ∧ pos.y < bounds.y

instance (pos bounds : V2) : Decidable (posIsInBounds pos bounds) :=
  inferInstanceAs (Decidable (_ ∧ _ ∧ _ ∧ _))

/-- `getEntityHandleAtPos(gameState, pos)`.  Out-of-bounds positions give
the null handle; in-bounds positions index the dense row-major storage.
(`storage[index]` past the end of the array is JavaScript `undefined`,
modelled like `null` as `none`.) -/
def getEntityHandleAtPos (gameState : GameState) (pos : V2) : EntityHandle :=
  if posIsInBounds pos gameState.worldDim then
    let index := pos.y * gameState.worldDim.x + pos.x
    { index := index, pos := pos, entity := gameState.storage[index.toNat]? }
  else
    { index := 0, pos := ⟨0, 0⟩, entity := none }

/-- Mutation of the entity object stored at index `i`
(`handle.entity.field = ...` through the alias into `storage`); a no-op
when no entity is stored there. -/
def modifyEntityAt (gameState : GameState) (i : Nat) (f : Entity → Entity) : GameState :=
  { gameState with storage :=
      match gameState.storage[i]? with
      | some e => gameState.storage.set i (f e)
      | none => gameState.storage }

/-- `startWorkingConditionally(gameState, handle, condition, efficiency)`:
zero the rate, then, if the cell immediately to the left holds an entity
of kind `condition`, take its current rate scaled by `efficiency`. -/
def startWorkingConditionally (gameState : GameState) (handle : EntityHandle)
    (condition : EntityKind) (efficiency : ℚ) : GameState :=
  match handle.entity with
  | none => gameState
  | some _ =>
    let gs0 := modifyEntityAt gameState handle.index.toNat
      (fun e => { e with currentRate := 0 })
    let entityOnLeftHandle :=
      getEntityHandleAtPos gs0 ⟨handle.pos.x - 1, handle.pos.y⟩
    match entityOnLeftHandle.entity with
    | some leftEntity =>
      if leftEntity.kind = condition then
        modifyEntityAt gs0 handle.index.toNat
          (fun e => { e with currentRate := leftEntity.currentRate * efficiency })
      else gs0
    | none => gs0

/-- The generator activation test of the `EntityKind.Generator` case:
`Math.floor((cursor - margin) / cellDimPx)` equals the cell coordinate,
on both axes. -/
def cursorIsOver (gameState : GameState) (pos : V2) : Prop :=
  ⌊(gameState.cursor.pos.x - gameState.worldMargins.left) / gameState.cellDimPx⌋ = pos.x ∧
  ⌊(gameState.cursor.pos.y - gameState.worldMargins.top) / gameState.cellDimPx⌋ = pos.y

instance (gameState : GameState) (pos : V2) : Decidable (cursorIsOver gameState pos) :=
  inferInstanceAs (Decidable (_ ∧ _))

/-- The `while (entity.cycleProgress >= 1) entity.cycleProgress -= 1` loop
body, iterated a given number of times. -/
def wrapAux : Nat → ℚ → ℚ
  | 0, p => p
  | n + 1, p => if 1 ≤ p then wrapAux n (p - 1) else p

/-- The wrap loop run to completion: `⌊p⌋.toNat` iterations always reach
the loop exit condition (see `wrapAux_eq_wrapProgress`). -/
def wrapProgress (p : ℚ) : ℚ := wrapAux (⌊p⌋).toNat p

/-- The current rate stored at index `i` (`entity.currentRate` through the
alias); `0` if absent. -/
def rateAt (gameState : GameState) (i : Nat) : ℚ :=
  match gameState.storage[i]? with
  | some e => e.currentRate
  | none => 0

/-- The kind stored at index `i`, if any. -/
def kindAt (gameState : GameState) (i : Nat) : Option EntityKind :=
  (gameState.storage[i]?).map (·.kind)

/-- The rate the `EntityKind.Generator` case assigns: `1` when the cursor
is over this cell with the primary button held, else `0`. -/
def generatorRate (gameState : GameState) (pos : V2) : ℚ :=
  if cursorIsOver gameState pos ∧ gameState.cursor.leftButtonDown then 1 else 0

/-- `gameState.currentNumber += amount` (the resource-ledger update). -/
def addToLedger (gameState : GameState) (amount : ℚ) : GameState :=
  { gameState with currentNumber := gameState.currentNumber + amount }

/-- `console.error` on an unknown entity kind: the diagnostic is recorded
in the explicit sink, nothing else changes. -/
def logError (gameState : GameState) (k : EntityKind) : GameState :=
  { gameState with consoleErrors := gameState.consoleErrors ++ [k] }

/-- The body of the entity-update loop of `gameUpdateAndRender` for one
visited handle: the per-kind `switch` setting `currentRate` (and, for
producers, bumping the ledger `currentNumber` with the just-computed
rate), followed by the unconditional wrap-then-add cycle accumulation. -/
def tickBody (gameState : GameState) (handle : EntityHandle) (deltaTime : ℚ) : GameState :=
  match handle.entity with
  | none => gameState
  | some entity =>
    let gs1 :=
      match entity.kind with
      | .Producer =>
        let gsP := startWorkingConditionally gameState handle .Motor (8 / 10)
        addToLedger gsP
          (rateAt gsP handle.index.toNat * deltaTime / gsP.referenceCycleDuration)
      | .Motor => startWorkingConditionally gameState handle .Generator (5 / 10)
      | .Generator =>
        modifyEntityAt gameState handle.index.toNat (fun e =>
          { e with currentRate := generatorRate gameState handle.pos })
      | _ => logError gameState entity.kind
    modifyEntityAt gs1 handle.index.toNat (fun e =>
      { e with cycleProgress :=
          wrapProgress e.cycleProgress +
            deltaTime / gs1.referenceCycleDuration * e.currentRate })

/-- `type EntityIterator` (the mutable cursor object; the `gameState`
field of the TypeScript record is a live reference to the shared state
and is therefore passed as an explicit argument to the functions that
read it). -/
structure EntityIterator where
  handle : Option EntityHandle
  iterPos : V2
  done : Bool
deriving DecidableEq, Repr

/-- `beginEntityIteration()`. -/
def beginEntityIteration : EntityIterator :=
  { handle := none, iterPos := ⟨-1, 0⟩, done := false }

/-- `nextEntity(iterator)`: advance the raster cursor by one cell,
wrapping rows and finishing past the last row. -/
def nextEntity (gameState : GameState) (iterator : EntityIterator) : EntityIterator :=
  if iterator.done then iterator
  else
    let x1 := iterator.iterPos.x + 1
    if x1 ≥ gameState.worldDim.x then
      let pos2 : V2 := ⟨0, iterator.iterPos.y + 1⟩
      if pos2.y ≥ gameState.worldDim.y then
        { handle := none, iterPos := pos2, done := true }
      else
        { handle := some (getEntityHandleAtPos gameState pos2), iterPos := pos2, done := false }
    else
      let pos1 : V2 := ⟨x1, iterator.iterPos.y⟩
      { handle := some (getEntityHandleAtPos gameState pos1), iterPos := pos1, done := false }

/-- The skip test of `nextNonNullEntity`:
`iterator.handle?.entity?.kind === EntityKind.None` (the optional chain
yields the kind only when both the handle and its entity are present;
`undefined === EntityKind.None` is false). -/
def kindIsNone (iterator : EntityIterator) : Prop :=
  ((iterator.handle.bind (·.entity)).map (·.kind)) = some EntityKind.None

instance (iterator : EntityIterator) : Decidable (kindIsNone iterator) :=
  inferInstanceAs (Decidable (_ = _))

/-- Upper bound on the number of `nextEntity` steps left before the
iterator reaches `done`; the fuel for the loops below. -/
def iterMeasure (gameState : GameState) (iterator : EntityIterator) : Nat :=
  if iterator.done then 0
  else
    (gameState.worldDim.y - iterator.iterPos.y).toNat * (gameState.worldDim.x.toNat + 1) +
      (gameState.worldDim.x - iterator.iterPos.x).toNat

/-- The do-while loop of `nextNonNullEntity`, with explicit fuel. -/
def nextNonNullAux (gameState : GameState) : Nat → EntityIterator → EntityIterator
  | 0, iterator => nextEntity gameState iterator
  | n + 1, iterator =>
    let it1 := nextEntity gameState iterator
    if it1.done = false ∧ kindIsNone it1 then nextNonNullAux gameState n it1 else it1

/-- `nextNonNullEntity(iterator)`: advance, skipping `None`-kind cells.
`iterMeasure` fuel is always adequate (see `nextNonNullAux_congr`). -/
def nextNonNullEntity (gameState : GameState) (iterator : EntityIterator) : EntityIterator :=
  nextNonNullAux gameState (iterMeasure gameState iterator) iterator

/-- The `for (const entityIterator = nextNonNullEntity(...); !done; ...)`
update loop of `gameUpdateAndRender`, with explicit fuel: run the body on
the current handle, advance on the updated state, repeat. -/
def tickLoopAux (deltaTime : ℚ) : Nat → GameState → EntityIterator → GameState
  | 0, gameState, iterator =>
    if iterator.done then gameState
    else
      match iterator.handle with
      | none => gameState
      | some h => tickBody gameState h deltaTime
  | n + 1, gameState, iterator =>
    if iterator.done then gameState
    else
      match iterator.handle with
      | none => gameState
      | some h =>
        let gs1 := tickBody gameState h deltaTime
        let it1 := nextNonNullEntity gs1 iterator
        if it1.done then gs1 else tickLoopAux deltaTime n gs1 it1

/-- The update loop run to completion (`iterMeasure` fuel is adequate,
see `tickLoopAux_congr`). -/
def tickLoop (gameState : GameState) (iterator : EntityIterator) (deltaTime : ℚ) : GameState :=
  tickLoopAux deltaTime (iterMeasure gameState iterator) gameState iterator

/-- The update pass of `gameUpdateAndRender(gameState, deltaTime)` (the
rendering pass that follows in the source only reads the state and draws
to the canvas, which is out of the simulation core). -/
def gameUpdateAndRender (gameState : GameState) (deltaTime : ℚ) : GameState :=
  tickLoop gameState (nextNonNullEntity gameState beginEntityIteration) deltaTime

/-- Positions emitted by driving `nextEntity` from `iterator` to
completion, with explicit fuel. -/
def iterToListAux (gameState : GameState) : Nat → EntityIterator → List V2
  | 0, _ => []
  | n + 1, iterator =>
    if iterator.done then []
    else
      let it1 := nextEntity gameState iterator
      if it1.done then [] else it1.iterPos :: iterToListAux gameState n it1

/-- The full traversal sequence of the unfiltered iterator from a given
state (fuel `iterMeasure` is adequate, see `iterToListAux_congr`). -/
def iterToList (gameState : GameState) (iterator : EntityIterator) : List V2 :=
  iterToListAux gameState (iterMeasure gameState iterator) iterator

/-- Positions emitted by driving `nextNonNullEntity` from `iterator` to
completion, with explicit fuel. -/
def iterToListNNAux (gameState : GameState) : Nat → EntityIterator → List V2
  | 0, _ => []
  | n + 1, iterator =>
    if iterator.done then []
    else
      let it1 := nextNonNullEntity gameState iterator
      if it1.done then [] else it1.iterPos :: iterToListNNAux gameState n it1

/-- The full traversal sequence of the filtered iterator from a given
state. -/
def iterToListNN (gameState : GameState) (iterator : EntityIterator) : List V2 :=
  iterToListNNAux gameState (iterMeasure gameState iterator) iterator

/-- `[a, a+1, ..., b-1]` as integers (empty when `b ≤ a`). -/
def rangeInt (a b : Int) : List Int :=
  (List.range (b - a).toNat).map (fun i => a + Int.ofNat i)

/-- The strict row-major enumeration of the in-bounds grid positions:
`x` from `0` to `width-1` fastest-varying, then `y` from `0` to
`height-1`. -/
def rowMajor (w h : Int) : List V2 :=
  (rangeInt 0 h).flatMap (fun y => (rangeInt 0 w).map (fun x => (⟨x, y⟩ : V2)))

/-- Whether the entity resolved at `p` is present with kind `None` (the
cells the filtered iterator skips). -/
def entityIsNoneAt (gameState : GameState) (p : V2) : Prop :=
  (((getEntityHandleAtPos gameState p).entity).map (·.kind)) = some EntityKind.None

instance (gameState : GameState) (p : V2) : Decidable (entityIsNoneAt gameState p) :=
  inferInstanceAs (Decidable (_ = _))

/-- The occupied positions of a grid state, in traversal order: the
row-major sequence restricted to cells not skipped by the filtered
iterator. -/
def occupiedSeq (gameState : GameState) : List V2 :=
  (rowMajor gameState.worldDim.x gameState.worldDim.y).filter
    (fun p => ¬ entityIsNoneAt gameState p)

/-- A single visit of the update loop at position `p`: the body applied
to the handle freshly resolved at `p` (how the loop obtains it). -/
def tickStep (deltaTime : ℚ) (gameState : GameState) (p : V2) : GameState :=
  tickBody gameState (getEntityHandleAtPos gameState p) deltaTime

/-- The update pass as a left fold of visits over a position list. -/
def tickFold (gameState : GameState) (ps : List V2) (deltaTime : ℚ) : GameState :=
  ps.foldl (tickStep deltaTime) gameState

/-- `handle.entity.kind = k` assignment of the Init block of `main`:
set the kind at `pos` when an entity is resolved there. -/
def setKindAtPos (gameState : GameState) (pos : V2) (k : EntityKind) : GameState :=
  let handle := getEntityHandleAtPos gameState pos
  match handle.entity with
  | some _ => modifyEntityAt gameState handle.index.toNat (fun e => { e with kind := k })
  | none => gameState

/-- The construction performed by `main`, parametrised by the three
configuration constants the spec declares fixed at construction
(`width`, `height`, `referenceCycleDuration`; `main` instantiates them at
`10`, `10`, `1000`).  The Init block pushes `worldDim.x * worldDim.y`
default entities (the `for` loop runs `max (w*h) 0` times) and then
assigns the Generator/Motor/Producer test row at `(0,5)`, `(1,5)`,
`(2,5)`.  No validation of the configuration is performed anywhere. -/
def initGameState (worldDim : V2) (referenceCycleDuration : ℚ) : GameState :=
  let gs0 : GameState :=
    { lastTimestamp := 0
      worldDim := worldDim
      cursor := { pos := ⟨0, 0⟩, leftButtonDown := false }
      storage := List.replicate (worldDim.x * worldDim.y).toNat
        { kind := EntityKind.None, currentRate := 0, cycleProgress := 0 }
      referenceCycleDuration := referenceCycleDuration
      cellDimPx := 50
      gridCellBorderWidthPx := 1
      worldMargins := { top := 20, bottom := 30, left := 40, right := 50 }
      currentNumber := 0
      consoleErrors := [] }
  let gs1 := setKindAtPos gs0 ⟨0, 5⟩ EntityKind.Generator
  let gs2 := setKindAtPos gs1 ⟨1, 5⟩ EntityKind.Motor
  setKindAtPos gs2 ⟨2, 5⟩ EntityKind.Producer

/-- The exact `GameState` that `main` builds. -/
def mainGameState : GameState := initGameState ⟨10, 10⟩ 1000

/-- The positions the raster traversal still has to emit when its cursor
sits at `(x, y)`: the remainder of row `y`, then all later rows. -/
def rowTail (w h x y : Int) : List V2 :=
  (rangeInt (x + 1) w).map (fun t => (⟨t, y⟩ : V2)) ++
    (rangeInt (y + 1) h).flatMap (fun yy => (rangeInt 0 w).map (fun t => (⟨t, yy⟩ : V2)))

/-- Two iterators that agree on the control fields (`done`, `iterPos`);
their handles may differ. -/
def iterSim (a b : EntityIterator) : Prop :=
  a.done = b.done ∧ a.iterPos = b.iterPos

/-- The row-major storage index of position `p` on a grid of width `w`
(`pos.y * worldDim.x + pos.x`). -/
def gridIndex (w : Int) (p : V2) : Nat := (p.y * w + p.x).toNat

/-- What the per-kind `switch` prints: the diagnostic of the `default`
branch for a kind outside the three handled ones, nothing otherwise. -/
def switchDiagnostic : EntityKind → List EntityKind
  | .Producer => []
  | .Motor => []
  | .Generator => []
  | k => [k]

/-- The kind of the entity resolved at a position, if one is present. -/
def kindAtPos (gameState : GameState) (p : V2) : Option EntityKind :=
  ((getEntityHandleAtPos gameState p).entity).map (·.kind)

/-! ### Concrete states for exercising the claims -/

/-- A 3-by-1 grid holding the Generator/Motor/Producer chain at
`(0,0)`, `(1,0)`, `(2,0)`, with the cursor floored over the generator
cell and the primary button held. -/
def tinyState : GameState :=
  { lastTimestamp := 0
    worldDim := ⟨3, 1⟩
    cursor := { pos := ⟨45, 25⟩, leftButtonDown := true }
    storage := [⟨EntityKind.Generator, 0, 0⟩, ⟨EntityKind.Motor, 0, 0⟩,
      ⟨EntityKind.Producer, 0, 0⟩]
    referenceCycleDuration := 1000
    cellDimPx := 50
    gridCellBorderWidthPx := 1
    worldMargins := { top := 20, bottom := 30, left := 40, right := 50 }
    currentNumber := 0
    consoleErrors := [] }

/-- A 1-by-1 grid whose single cell holds an entity of a kind outside
the closed variant set. -/
def corruptState : GameState :=
  { lastTimestamp := 0
    worldDim := ⟨1, 1⟩
    cursor := { pos := ⟨0, 0⟩, leftButtonDown := false }
    storage := [⟨EntityKind.Corrupt 7, 3 / 10, 5 / 2⟩]
    referenceCycleDuration := 1000
    cellDimPx := 50
    gridCellBorderWidthPx := 1
    worldMargins := { top := 20, bottom := 30, left := 40, right := 50 }
    currentNumber := 0
    consoleErrors := [] }

/-! ### The wrap loop terminates and normalises -/

/-- Once the wrap loop's guard fails, any amount of fuel is a no-op. -/
theorem wrapAux_of_not_le {p : ℚ} (h : ¬ 1 ≤ p) : ∀ n, wrapAux n p = p
  | 0 => rfl
  | n + 1 => by simp [wrapAux, h]

/-- Any fuel at least `⌊p⌋.toNat` computes the same wrap result: the
`while (cycleProgress >= 1)` loop has stabilised by then. -/
theorem wrapAux_congr :
    ∀ n m (p : ℚ), (⌊p⌋).toNat ≤ n → (⌊p⌋).toNat ≤ m → wrapAux n p = wrapAux m p := by
  intro n
  induction n with
  | zero =>
    intro m p hn _
    have hp : ¬ 1 ≤ p := by
      intro hge
      have : (1 : ℤ) ≤ ⌊p⌋ := by
        rw [Int.le_floor]; exact_mod_cast hge
      omega
    rw [wrapAux_of_not_le hp, wrapAux_of_not_le hp]
  | succ n ih =>
    intro m p hn hm
    by_cases hp : 1 ≤ p
    · have hfl : (1 : ℤ) ≤ ⌊p⌋ := by
        rw [Int.le_floor]; exact_mod_cast hp
      obtain ⟨m', rfl⟩ : ∃ m', m = m' + 1 := by
        rcases m with _ | m'
        · omega
        · exact ⟨m', rfl⟩
      have hsub : ⌊p - 1⌋ = ⌊p⌋ - 1 := by
        simpa using Int.floor_sub_int p 1
      have hsubNat : (⌊p - 1⌋).toNat ≤ n ∧ (⌊p - 1⌋).toNat ≤ m' := by
        rw [hsub]; omega
      simp only [wrapAux, if_pos hp]
      exact ih m' (p - 1) hsubNat.1 hsubNat.2
    · rw [wrapAux_of_not_le hp, wrapAux_of_not_le hp]

/-- The defining one-step equation of the wrap loop. -/
theorem wrapProgress_eq (p : ℚ) :
    wrapProgress p = if 1 ≤ p then wrapProgress (p - 1) else p := by
  by_cases hp : 1 ≤ p
  · have hfl : (1 : ℤ) ≤ ⌊p⌋ := by rw [Int.le_floor]; exact_mod_cast hp
    have hsub : ⌊p - 1⌋ = ⌊p⌋ - 1 := by simpa using Int.floor_sub_int p 1
    obtain ⟨k, hk⟩ : ∃ k, (⌊p⌋).toNat = k + 1 := by
      refine ⟨(⌊p⌋).toNat - 1, ?_⟩; omega
    rw [if_pos hp]
    unfold wrapProgress
    rw [hk]
    simp only [wrapAux, if_pos hp]
    exact wrapAux_congr k ((⌊p - 1⌋).toNat) (p - 1) (by rw [hsub]; omega) le_rfl
  · rw [if_neg hp]
    unfold wrapProgress
    exact wrapAux_of_not_le hp _

/-- Values already below `1` are left unchanged by the wrap loop. -/
theorem wrapProgress_of_lt_one {p : ℚ} (h : p < 1) : wrapProgress p = p := by
  rw [wrapProgress_eq, if_neg (not_le.mpr h)]

/-- On non-negative input the wrap loop lands in `[0, 1)`. -/
theorem wrapProgress_bounds {p : ℚ} (h : 0 ≤ p) :
    0 ≤ wrapProgress p ∧ wrapProgress p < 1 := by
  by_cases hlt : p < 1
  · rw [wrapProgress_of_lt_one hlt]; exact ⟨h, hlt⟩
  · push_neg at hlt
    have hfl : (0 : ℤ) ≤ ⌊p⌋ := Int.floor_nonneg.mpr h
    have hmeas : ∀ k (q : ℚ), (⌊q⌋).toNat = k → 0 ≤ q → 0 ≤ wrapProgress q ∧ wrapProgress q < 1 := by
      intro k
      induction k using Nat.strong_induction_on with
      | _ k ih =>
        intro q hk hq
        by_cases hq1 : 1 ≤ q
        · have hfl1 : (1 : ℤ) ≤ ⌊q⌋ := by rw [Int.le_floor]; exact_mod_cast hq1
          have hsub : ⌊q - 1⌋ = ⌊q⌋ - 1 := by simpa using Int.floor_sub_int q 1
          rw [wrapProgress_eq, if_pos hq1]
          exact ih ((⌊q - 1⌋).toNat) (by rw [hsub]; omega) (q - 1) rfl (by linarith)
        · push_neg at hq1
          rw [wrapProgress_of_lt_one hq1]
          exact ⟨hq, hq1⟩
    exact hmeas ((⌊p⌋).toNat) p rfl h

/-! ### The entity iterator terminates -/

/-- `nextEntity` on a finished iterator is the identity. -/
theorem nextEntity_of_done {gameState : GameState} {it : EntityIterator}
    (h : it.done = true) : nextEntity gameState it = it := by
  simp [nextEntity, h]

/-- Each live `nextEntity` step that does not finish strictly decreases
the step bound `iterMeasure`: the traversal loop terminates. -/
theorem iterMeasure_nextEntity_lt {gameState : GameState} {it : EntityIterator}
    (h1 : it.done = false) (h2 : (nextEntity gameState it).done = false) :
    iterMeasure gameState (nextEntity gameState it) < iterMeasure gameState it := by
  unfold nextEntity at *
  rw [h1] at h2 ⊢
  simp only [Bool.false_eq_true, if_false] at h2 ⊢
  by_cases hx : it.iterPos.x + 1 ≥ gameState.worldDim.x
  · rw [if_pos hx] at h2 ⊢
    by_cases hy : it.iterPos.y + 1 ≥ gameState.worldDim.y
    · rw [if_pos hy] at h2
      simp at h2
    · rw [if_neg hy] at h2 ⊢
      simp only [iterMeasure, h1, Bool.false_eq_true, if_false]
      have hstep : (gameState.worldDim.y - it.iterPos.y).toNat =
          (gameState.worldDim.y - (it.iterPos.y + 1)).toNat + 1 := by omega
      rw [hstep, Nat.succ_mul]
      have hxb : (gameState.worldDim.x - (0 : Int)).toNat ≤ gameState.worldDim.x.toNat := by omega
      omega
  · rw [if_neg hx] at h2 ⊢
    simp only [iterMeasure, h1, Bool.false_eq_true, if_false]
    have : (gameState.worldDim.x - (it.iterPos.x + 1)).toNat <
        (gameState.worldDim.x - it.iterPos.x).toNat := by omega
    omega

/-- A live iterator with an exhausted step bound finishes in one step. -/
theorem nextEntity_done_of_measure_zero {gameState : GameState} {it : EntityIterator}
    (h1 : it.done = false) (h0 : iterMeasure gameState it = 0) :
    (nextEntity gameState it).done = true := by
  by_contra hne
  have h2 : (nextEntity gameState it).done = false := by
    cases h : (nextEntity gameState it).done
    · rfl
    · exact absurd h hne
  have := iterMeasure_nextEntity_lt h1 h2
  omega

/-- The do-while loop of `nextNonNullEntity` computes the same result
under any adequate fuel. -/
theorem nextNonNullAux_congr {gameState : GameState} :
    ∀ n m (it : EntityIterator), iterMeasure gameState it ≤ n →
      iterMeasure gameState it ≤ m →
      nextNonNullAux gameState n it = nextNonNullAux gameState m it := by
  intro n
  induction n with
  | zero =>
    intro m it hn _
    have h0 : iterMeasure gameState it = 0 := by omega
    have hguard : ¬ ((nextEntity gameState it).done = false ∧
        kindIsNone (nextEntity gameState it)) := by
      rintro ⟨hdone, -⟩
      cases hit : it.done
      · exact absurd (nextEntity_done_of_measure_zero hit h0) (by simp [hdone])
      · rw [nextEntity_of_done hit] at hdone
        rw [hit] at hdone
        exact absurd hdone (by simp)
    cases m with
    | zero => rfl
    | succ m' => simp only [nextNonNullAux, if_neg hguard]
  | succ n ih =>
    intro m it hn hm
    by_cases hguard : (nextEntity gameState it).done = false ∧
        kindIsNone (nextEntity gameState it)
    · have hit : it.done = false := by
        cases h : it.done
        · rfl
        · rw [nextEntity_of_done h, h] at hguard
          exact absurd hguard.1 (by simp)
      have hlt := iterMeasure_nextEntity_lt hit hguard.1
      obtain ⟨m', rfl⟩ : ∃ m', m = m' + 1 := by
        rcases m with _ | m'
        · omega
        · exact ⟨m', rfl⟩
      simp only [nextNonNullAux, if_pos hguard]
      exact ih m' (nextEntity gameState it) (by omega) (by omega)
    · cases m with
      | zero =>
        have h0 : iterMeasure gameState it = 0 := by omega
        simp only [nextNonNullAux, if_neg hguard]
      | succ m' => simp only [nextNonNullAux, if_neg hguard]

/-- The defining one-step equation of `nextNonNullEntity`: advance once,
then keep advancing while the resolved entity exists with kind `None`. -/
theorem nextNonNullEntity_eq (gameState : GameState) (it : EntityIterator) :
    nextNonNullEntity gameState it =
      (if (nextEntity gameState it).done = false ∧ kindIsNone (nextEntity gameState it)
       then nextNonNullEntity gameState (nextEntity gameState it)
       else nextEntity gameState it) := by
  by_cases hguard : (nextEntity gameState it).done = false ∧
      kindIsNone (nextEntity gameState it)
  · have hit : it.done = false := by
      cases h : it.done
      · rfl
      · rw [nextEntity_of_done h, h] at hguard
        exact absurd hguard.1 (by simp)
    rw [if_pos hguard]
    unfold nextNonNullEntity
    obtain ⟨k, hk⟩ : ∃ k, iterMeasure gameState it = k + 1 := by
      have hlt := iterMeasure_nextEntity_lt hit hguard.1
      refine ⟨iterMeasure gameState it - 1, ?_⟩
      omega
    rw [hk]
    simp only [nextNonNullAux, if_pos hguard]
    refine nextNonNullAux_congr k _ _ ?_ le_rfl
    have hlt := iterMeasure_nextEntity_lt hit hguard.1
    omega
  · rw [if_neg hguard]
    unfold nextNonNullEntity
    cases hk : iterMeasure gameState it with
    | zero => simp only [nextNonNullAux]
    | succ k => simp only [nextNonNullAux, if_neg hguard]

/-- Each `nextNonNullEntity` call that does not finish the traversal
strictly decreases the step bound. -/
theorem iterMeasure_nextNonNull_lt {gameState : GameState} {it : EntityIterator}
    (h2 : (nextNonNullEntity gameState it).done = false) :
    iterMeasure gameState (nextNonNullEntity gameState it) < iterMeasure gameState it := by
  have main : ∀ n (it : EntityIterator), iterMeasure gameState it ≤ n →
      (nextNonNullEntity gameState it).done = false →
      iterMeasure gameState (nextNonNullEntity gameState it) < iterMeasure gameState it := by
    intro n
    induction n with
    | zero =>
      intro it hn hdone
      have h0 : iterMeasure gameState it = 0 := by omega
      rw [nextNonNullEntity_eq] at hdone
      cases hit : it.done
      · have := nextEntity_done_of_measure_zero hit h0
        rw [if_neg (by simp [this]), this] at hdone
        cases hdone
      · rw [nextEntity_of_done hit] at hdone
        rw [if_neg (by rw [hit]; simp), hit] at hdone
        cases hdone
    | succ n ih =>
      intro it hn hdone
      rw [nextNonNullEntity_eq] at hdone ⊢
      by_cases hguard : (nextEntity gameState it).done = false ∧
          kindIsNone (nextEntity gameState it)
      · have hit : it.done = false := by
          cases h : it.done
          · rfl
          · rw [nextEntity_of_done h, h] at hguard
            exact absurd hguard.1 (by simp)
        rw [if_pos hguard] at hdone ⊢
        have hlt := iterMeasure_nextEntity_lt hit hguard.1
        have := ih (nextEntity gameState it) (by omega) hdone
        omega
      · rw [if_neg hguard] at hdone ⊢
        have hit : it.done = false := by
          cases h : it.done
          · rfl
          · rw [nextEntity_of_done h, h] at hdone; cases hdone
        exact iterMeasure_nextEntity_lt hit hdone
  exact main (iterMeasure gameState it) it le_rfl h2

/-- A live `nextEntity` result carries the handle freshly resolved at its
position. -/
theorem nextEntity_handle {gameState : GameState} {it : EntityIterator}
    (h2 : (nextEntity gameState it).done = false) :
    (nextEntity gameState it).handle =
      some (getEntityHandleAtPos gameState (nextEntity gameState it).iterPos) := by
  have hit : it.done = false := by
    cases h : it.done
    · rfl
    · rw [nextEntity_of_done h, h] at h2; cases h2
  unfold nextEntity at *
  rw [hit] at h2 ⊢
  simp only [Bool.false_eq_true, if_false] at h2 ⊢
  by_cases hx : it.iterPos.x + 1 ≥ gameState.worldDim.x
  · rw [if_pos hx] at h2 ⊢
    by_cases hy : it.iterPos.y + 1 ≥ gameState.worldDim.y
    · rw [if_pos hy] at h2; simp at h2
    · rw [if_neg hy]
  · rw [if_neg hx]

/-- A live `nextNonNullEntity` result carries the handle freshly resolved
at its position. -/
theorem nextNonNullEntity_handle {gameState : GameState} {it : EntityIterator}
    (h2 : (nextNonNullEntity gameState it).done = false) :
    (nextNonNullEntity gameState it).handle =
      some (getEntityHandleAtPos gameState (nextNonNullEntity gameState it).iterPos) := by
  have main : ∀ n (it : EntityIterator), iterMeasure gameState it ≤ n →
      (nextNonNullEntity gameState it).done = false →
      (nextNonNullEntity gameState it).handle =
        some (getEntityHandleAtPos gameState (nextNonNullEntity gameState it).iterPos) := by
    intro n
    induction n with
    | zero =>
      intro it hn hdone
      rw [nextNonNullEntity_eq] at hdone ⊢
      by_cases hguard : (nextEntity gameState it).done = false ∧
          kindIsNone (nextEntity gameState it)
      · have hit : it.done = false := by
          cases h : it.done
          · rfl
          · rw [nextEntity_of_done h, h] at hguard
            exact absurd hguard.1 (by simp)
        have h0 : iterMeasure gameState it = 0 := by omega
        exact absurd (nextEntity_done_of_measure_zero hit h0) (by simp [hguard.1])
      · rw [if_neg hguard] at hdone ⊢
        exact nextEntity_handle hdone
    | succ n ih =>
      intro it hn hdone
      rw [nextNonNullEntity_eq] at hdone ⊢
      by_cases hguard : (nextEntity gameState it).done = false ∧
          kindIsNone (nextEntity gameState it)
      · have hit : it.done = false := by
          cases h : it.done
          · rfl
          · rw [nextEntity_of_done h, h] at hguard
            exact absurd hguard.1 (by simp)
        rw [if_pos hguard] at hdone ⊢
        have hlt := iterMeasure_nextEntity_lt hit hguard.1
        exact ih (nextEntity gameState it) (by omega) hdone
      · rw [if_neg hguard] at hdone ⊢
        exact nextEntity_handle hdone
  exact main (iterMeasure gameState it) it le_rfl h2

/-! ### Frame lemmas: what each mutation leaves untouched -/

section Frame

variable (gameState : GameState) (i j : Nat) (f : Entity → Entity)

@[simp] theorem modifyEntityAt_worldDim :
    (modifyEntityAt gameState i f).worldDim = gameState.worldDim := rfl

@[simp] theorem modifyEntityAt_cursor :
    (modifyEntityAt gameState i f).cursor = gameState.cursor := rfl

@[simp] theorem modifyEntityAt_referenceCycleDuration :
    (modifyEntityAt gameState i f).referenceCycleDuration =
      gameState.referenceCycleDuration := rfl

@[simp] theorem modifyEntityAt_cellDimPx :
    (modifyEntityAt gameState i f).cellDimPx = gameState.cellDimPx := rfl

@[simp] theorem modifyEntityAt_worldMargins :
    (modifyEntityAt gameState i f).worldMargins = gameState.worldMargins := rfl

@[simp] theorem modifyEntityAt_lastTimestamp :
    (modifyEntityAt gameState i f).lastTimestamp = gameState.lastTimestamp := rfl

@[simp] theorem modifyEntityAt_gridCellBorderWidthPx :
    (modifyEntityAt gameState i f).gridCellBorderWidthPx =
      gameState.gridCellBorderWidthPx := rfl

@[simp] theorem modifyEntityAt_currentNumber :
    (modifyEntityAt gameState i f).currentNumber = gameState.currentNumber := rfl

@[simp] theorem modifyEntityAt_consoleErrors :
    (modifyEntityAt gameState i f).consoleErrors = gameState.consoleErrors := rfl

@[simp] theorem modifyEntityAt_length :
    (modifyEntityAt gameState i f).storage.length = gameState.storage.length := by
  unfold modifyEntityAt
  cases h : gameState.storage[i]? <;> simp [h]

theorem modifyEntityAt_of_none (h : gameState.storage[i]? = none) :
    modifyEntityAt gameState i f = gameState := by
  simp [modifyEntityAt, h]

theorem modifyEntityAt_getElem?_ne (hij : j ≠ i) :
    (modifyEntityAt gameState i f).storage[j]? = gameState.storage[j]? := by
  unfold modifyEntityAt
  cases h : gameState.storage[i]? <;>
    simp [h, List.getElem?_set_ne (Ne.symm hij)]

theorem modifyEntityAt_getElem?_self {e : Entity}
    (h : gameState.storage[i]? = some e) :
    (modifyEntityAt gameState i f).storage[i]? = some (f e) := by
  have hlt : i < gameState.storage.length := by
    by_contra hge
    rw [List.getElem?_eq_none (by omega)] at h
    cases h
  unfold modifyEntityAt
  rw [h]
  simp [List.getElem?_set_self hlt]

theorem kindAt_modifyEntityAt (hf : ∀ e, (f e).kind = e.kind) :
    kindAt (modifyEntityAt gameState i f) j = kindAt gameState j := by
  by_cases hij : j = i
  · subst hij
    cases h : gameState.storage[j]? with
    | none => rw [modifyEntityAt_of_none gameState j f h]
    | some e =>
      unfold kindAt
      rw [h, modifyEntityAt_getElem?_self gameState j f h]
      simp [hf]
  · unfold kindAt
    rw [modifyEntityAt_getElem?_ne gameState i j f hij]

end Frame

section FrameSW

variable (gameState : GameState) (handle : EntityHandle) (c : EntityKind) (eff : ℚ)

@[simp] theorem startWorkingConditionally_worldDim :
    (startWorkingConditionally gameState handle c eff).worldDim = gameState.worldDim := by
  unfold startWorkingConditionally
  split
  · rfl
  · dsimp only
    split
    · split <;> rfl
    · rfl

@[simp] theorem startWorkingConditionally_cursor :
    (startWorkingConditionally gameState handle c eff).cursor = gameState.cursor := by
  unfold startWorkingConditionally
  split
  · rfl
  · dsimp only
    split
    · split <;> rfl
    · rfl

@[simp] theorem startWorkingConditionally_referenceCycleDuration :
    (startWorkingConditionally gameState handle c eff).referenceCycleDuration =
      gameState.referenceCycleDuration := by
  unfold startWorkingConditionally
  split
  · rfl
  · dsimp only
    split
    · split <;> rfl
    · rfl

@[simp] theorem startWorkingConditionally_cellDimPx :
    (startWorkingConditionally gameState handle c eff).cellDimPx = gameState.cellDimPx := by
  unfold startWorkingConditionally
  split
  · rfl
  · dsimp only
    split
    · split <;> rfl
    · rfl

@[simp] theorem startWorkingConditionally_worldMargins :
    (startWorkingConditionally gameState handle c eff).worldMargins =
      gameState.worldMargins := by
  unfold startWorkingConditionally
  split
  · rfl
  · dsimp only
    split
    · split <;> rfl
    · rfl

@[simp] theorem startWorkingConditionally_lastTimestamp :
    (startWorkingConditionally gameState handle c eff).lastTimestamp =
      gameState.lastTimestamp := by
  unfold startWorkingConditionally
  split
  · rfl
  · dsimp only
    split
    · split <;> rfl
    · rfl

@[simp] theorem startWorkingConditionally_gridCellBorderWidthPx :
    (startWorkingConditionally gameState handle c eff).gridCellBorderWidthPx =
      gameState.gridCellBorderWidthPx := by
  unfold startWorkingConditionally
  split
  · rfl
  · dsimp only
    split
    · split <;> rfl
    · rfl

@[simp] theorem startWorkingConditionally_currentNumber :
    (startWorkingConditionally gameState handle c eff).currentNumber =
      gameState.currentNumber := by
  unfold startWorkingConditionally
  split
  · rfl
  · dsimp only
    split
    · split <;> rfl
    · rfl

@[simp] theorem startWorkingConditionally_consoleErrors :
    (startWorkingConditionally gameState handle c eff).consoleErrors =
      gameState.consoleErrors := by
  unfold startWorkingConditionally
  split
  · rfl
  · dsimp only
    split
    · split <;> rfl
    · rfl

@[simp] theorem startWorkingConditionally_length :
    (startWorkingConditionally gameState handle c eff).storage.length =
      gameState.storage.length := by
  unfold startWorkingConditionally
  split
  · rfl
  · dsimp only
    split
    · split <;> simp
    · simp

theorem startWorkingConditionally_getElem?_ne (j : Nat) (hj : j ≠ handle.index.toNat) :
    (startWorkingConditionally gameState handle c eff).storage[j]? =
      gameState.storage[j]? := by
  unfold startWorkingConditionally
  split
  · rfl
  · dsimp only
    split
    · split
      · rw [modifyEntityAt_getElem?_ne _ _ _ _ hj, modifyEntityAt_getElem?_ne _ _ _ _ hj]
      · rw [modifyEntityAt_getElem?_ne _ _ _ _ hj]
    · rw [modifyEntityAt_getElem?_ne _ _ _ _ hj]

theorem kindAt_startWorkingConditionally (j : Nat) :
    kindAt (startWorkingConditionally gameState handle c eff) j = kindAt gameState j := by
  unfold startWorkingConditionally
  split
  · rfl
  · dsimp only
    split
    · split <;> simp [kindAt_modifyEntityAt]
    · simp [kindAt_modifyEntityAt]

end FrameSW

section FrameLedgerLog

variable (gameState : GameState) (amount : ℚ) (k : EntityKind)

@[simp] theorem addToLedger_worldDim :
    (addToLedger gameState amount).worldDim = gameState.worldDim := rfl

@[simp] theorem addToLedger_cursor :
    (addToLedger gameState amount).cursor = gameState.cursor := rfl

@[simp] theorem addToLedger_referenceCycleDuration :
    (addToLedger gameState amount).referenceCycleDuration =
      gameState.referenceCycleDuration := rfl

@[simp] theorem addToLedger_cellDimPx :
    (addToLedger gameState amount).cellDimPx = gameState.cellDimPx := rfl

@[simp] theorem addToLedger_worldMargins :
    (addToLedger gameState amount).worldMargins = gameState.worldMargins := rfl

@[simp] theorem addToLedger_lastTimestamp :
    (addToLedger gameState amount).lastTimestamp = gameState.lastTimestamp := rfl

@[simp] theorem addToLedger_gridCellBorderWidthPx :
    (addToLedger gameState amount).gridCellBorderWidthPx =
      gameState.gridCellBorderWidthPx := rfl

@[simp] theorem addToLedger_storage :
    (addToLedger gameState amount).storage = gameState.storage := rfl

@[simp] theorem addToLedger_currentNumber :
    (addToLedger gameState amount).currentNumber =
      gameState.currentNumber + amount := rfl

@[simp] theorem addToLedger_consoleErrors :
    (addToLedger gameState amount).consoleErrors = gameState.consoleErrors := rfl

@[simp] theorem logError_worldDim :
    (logError gameState k).worldDim = gameState.worldDim := rfl

@[simp] theorem logError_cursor :
    (logError gameState k).cursor = gameState.cursor := rfl

@[simp] theorem logError_referenceCycleDuration :
    (logError gameState k).referenceCycleDuration =
      gameState.referenceCycleDuration := rfl

@[simp] theorem logError_cellDimPx :
    (logError gameState k).cellDimPx = gameState.cellDimPx := rfl

@[simp] theorem logError_worldMargins :
    (logError gameState k).worldMargins = gameState.worldMargins := rfl

@[simp] theorem logError_lastTimestamp :
    (logError gameState k).lastTimestamp = gameState.lastTimestamp := rfl

@[simp] theorem logError_gridCellBorderWidthPx :
    (logError gameState k).gridCellBorderWidthPx =
      gameState.gridCellBorderWidthPx := rfl

@[simp] theorem logError_storage :
    (logError gameState k).storage = gameState.storage := rfl

@[simp] theorem logError_currentNumber :
    (logError gameState k).currentNumber = gameState.currentNumber := rfl

@[simp] theorem logError_consoleErrors :
    (logError gameState k).consoleErrors = gameState.consoleErrors ++ [k] := rfl

end FrameLedgerLog

section FrameTick

variable (gameState : GameState) (handle : EntityHandle) (deltaTime : ℚ)

@[simp] theorem tickBody_worldDim :
    (tickBody gameState handle deltaTime).worldDim = gameState.worldDim := by
  unfold tickBody
  split
  · rfl
  · split <;> simp

@[simp] theorem tickBody_cursor :
    (tickBody gameState handle deltaTime).cursor = gameState.cursor := by
  unfold tickBody
  split
  · rfl
  · split <;> simp

@[simp] theorem tickBody_referenceCycleDuration :
    (tickBody gameState handle deltaTime).referenceCycleDuration =
      gameState.referenceCycleDuration := by
  unfold tickBody
  split
  · rfl
  · split <;> simp

@[simp] theorem tickBody_cellDimPx :
    (tickBody gameState handle deltaTime).cellDimPx = gameState.cellDimPx := by
  unfold tickBody
  split
  · rfl
  · split <;> simp

@[simp] theorem tickBody_worldMargins :
    (tickBody gameState handle deltaTime).worldMargins = gameState.worldMargins := by
  unfold tickBody
  split
  · rfl
  · split <;> simp

@[simp] theorem tickBody_lastTimestamp :
    (tickBody gameState handle deltaTime).lastTimestamp = gameState.lastTimestamp := by
  unfold tickBody
  split
  · rfl
  · split <;> simp

@[simp] theorem tickBody_gridCellBorderWidthPx :
    (tickBody gameState handle deltaTime).gridCellBorderWidthPx =
      gameState.gridCellBorderWidthPx := by
  unfold tickBody
  split
  · rfl
  · split <;> simp

@[simp] theorem tickBody_length :
    (tickBody gameState handle deltaTime).storage.length = gameState.storage.length := by
  unfold tickBody
  split
  · rfl
  · split <;> simp

theorem tickBody_getElem?_ne (j : Nat) (hj : j ≠ handle.index.toNat) :
    (tickBody gameState handle deltaTime).storage[j]? = gameState.storage[j]? := by
  unfold tickBody
  split
  · rfl
  · split
    · rw [modifyEntityAt_getElem?_ne _ _ _ _ hj]
      simp only [addToLedger_storage]
      exact startWorkingConditionally_getElem?_ne _ _ _ _ _ hj
    · rw [modifyEntityAt_getElem?_ne _ _ _ _ hj]
      exact startWorkingConditionally_getElem?_ne _ _ _ _ _ hj
    · rw [modifyEntityAt_getElem?_ne _ _ _ _ hj]
      exact modifyEntityAt_getElem?_ne _ _ _ _ hj
    · rw [modifyEntityAt_getElem?_ne _ _ _ _ hj]
      simp only [logError_storage]

theorem kindAt_tickBody (j : Nat) :
    kindAt (tickBody gameState handle deltaTime) j = kindAt gameState j := by
  unfold tickBody
  split
  · rfl
  · split
    · rw [kindAt_modifyEntityAt]
      · exact kindAt_startWorkingConditionally gameState handle .Motor (8 / 10) j
      · exact fun e => rfl
    · rw [kindAt_modifyEntityAt]
      · exact kindAt_startWorkingConditionally gameState handle .Generator (5 / 10) j
      · exact fun e => rfl
    · rw [kindAt_modifyEntityAt]
      · rw [kindAt_modifyEntityAt]
        · exact fun e => rfl
      · exact fun e => rfl
    · rw [kindAt_modifyEntityAt]
      · rfl
      · exact fun e => rfl

end FrameTick

/-! ### The update loop and the traversal lists: fuel adequacy -/

/-- `iterMeasure` only reads the grid dimensions. -/
theorem iterMeasure_congr {a b : GameState} (h : a.worldDim = b.worldDim)
    (it : EntityIterator) : iterMeasure a it = iterMeasure b it := by
  unfold iterMeasure
  rw [h]

/-- The update loop computes the same final state under any adequate
fuel: it terminates within `iterMeasure` steps. -/
theorem tickLoopAux_congr (deltaTime : ℚ) :
    ∀ n m (gameState : GameState) (it : EntityIterator),
      iterMeasure gameState it ≤ n → iterMeasure gameState it ≤ m →
      tickLoopAux deltaTime n gameState it = tickLoopAux deltaTime m gameState it := by
  intro n
  induction n with
  | zero =>
    intro m gameState it hn hm
    have h0 : iterMeasure gameState it = 0 := by omega
    cases hit : it.done with
    | true => cases m <;> simp [tickLoopAux, hit]
    | false =>
      cases hh : it.handle with
      | none => cases m <;> simp [tickLoopAux, hit, hh]
      | some h =>
        have hmeq : iterMeasure (tickBody gameState h deltaTime) it =
            iterMeasure gameState it :=
          iterMeasure_congr (tickBody_worldDim gameState h deltaTime) it
        have hdone : (nextNonNullEntity (tickBody gameState h deltaTime) it).done = true := by
          by_contra hne
          have h2 : (nextNonNullEntity (tickBody gameState h deltaTime) it).done = false := by
            cases hd : (nextNonNullEntity (tickBody gameState h deltaTime) it).done
            · rfl
            · exact absurd hd hne
          have := iterMeasure_nextNonNull_lt h2
          omega
        cases m with
        | zero => rfl
        | succ m' => simp [tickLoopAux, hit, hh, hdone]
  | succ n ih =>
    intro m gameState it hn hm
    cases hit : it.done with
    | true => cases m <;> simp [tickLoopAux, hit]
    | false =>
      cases hh : it.handle with
      | none => cases m <;> simp [tickLoopAux, hit, hh]
      | some h =>
        have hmeq : iterMeasure (tickBody gameState h deltaTime) it =
            iterMeasure gameState it :=
          iterMeasure_congr (tickBody_worldDim gameState h deltaTime) it
        cases hdone : (nextNonNullEntity (tickBody gameState h deltaTime) it).done with
        | true =>
          cases m with
          | zero => simp [tickLoopAux, hit, hh, hdone]
          | succ m' => simp [tickLoopAux, hit, hh, hdone]
        | false =>
          have hlt := iterMeasure_nextNonNull_lt hdone
          obtain ⟨m', rfl⟩ : ∃ m', m = m' + 1 := by
            rcases m with _ | m'
            · omega
            · exact ⟨m', rfl⟩
          simp only [tickLoopAux, hit, Bool.false_eq_true, if_false, hh, hdone]
          exact ih m' (tickBody gameState h deltaTime)
            (nextNonNullEntity (tickBody gameState h deltaTime) it)
            (by omega) (by omega)

/-- The defining one-step equation of the update loop: run the body on
the current handle, advance the iterator on the updated state, continue
unless finished. -/
theorem tickLoop_eq (gameState : GameState) (it : EntityIterator) (deltaTime : ℚ) :
    tickLoop gameState it deltaTime =
      (if it.done then gameState
       else
        match it.handle with
        | none => gameState
        | some h =>
          if (nextNonNullEntity (tickBody gameState h deltaTime) it).done
          then tickBody gameState h deltaTime
          else tickLoop (tickBody gameState h deltaTime)
            (nextNonNullEntity (tickBody gameState h deltaTime) it) deltaTime) := by
  cases hit : it.done with
  | true =>
    unfold tickLoop
    cases hk : iterMeasure gameState it <;> simp [tickLoopAux, hit]
  | false =>
    cases hh : it.handle with
    | none =>
      unfold tickLoop
      cases hk : iterMeasure gameState it <;> simp [tickLoopAux, hit, hh]
    | some h =>
      have hmeq : iterMeasure (tickBody gameState h deltaTime) it =
          iterMeasure gameState it :=
        iterMeasure_congr (tickBody_worldDim gameState h deltaTime) it
      cases hdone : (nextNonNullEntity (tickBody gameState h deltaTime) it).done with
      | true =>
        unfold tickLoop
        cases hk : iterMeasure gameState it <;> simp [tickLoopAux, hit, hh, hdone]
      | false =>
        have hlt := iterMeasure_nextNonNull_lt hdone
        simp only [hit, Bool.false_eq_true, if_false, hh, hdone]
        unfold tickLoop
        obtain ⟨k, hk⟩ : ∃ k, iterMeasure gameState it = k + 1 := by
          refine ⟨iterMeasure gameState it - 1, ?_⟩
          omega
        rw [hk]
        simp only [tickLoopAux, hit, Bool.false_eq_true, if_false, hh, hdone]
        exact tickLoopAux_congr deltaTime k _ _ _ (by omega) le_rfl

/-- The unfiltered traversal list is fuel-independent past the bound. -/
theorem iterToListAux_congr (gameState : GameState) :
    ∀ n m (it : EntityIterator),
      iterMeasure gameState it ≤ n → iterMeasure gameState it ≤ m →
      iterToListAux gameState n it = iterToListAux gameState m it := by
  intro n
  induction n with
  | zero =>
    intro m it hn hm
    have h0 : iterMeasure gameState it = 0 := by omega
    cases hit : it.done with
    | true => cases m <;> simp [iterToListAux, hit]
    | false =>
      have hdone := nextEntity_done_of_measure_zero hit h0
      cases m with
      | zero => rfl
      | succ m' => simp [iterToListAux, hit, hdone]
  | succ n ih =>
    intro m it hn hm
    cases hit : it.done with
    | true => cases m <;> simp [iterToListAux, hit]
    | false =>
      cases hdone : (nextEntity gameState it).done with
      | true => cases m <;> simp [iterToListAux, hit, hdone]
      | false =>
        have hlt := iterMeasure_nextEntity_lt hit hdone
        obtain ⟨m', rfl⟩ : ∃ m', m = m' + 1 := by
          rcases m with _ | m'
          · omega
          · exact ⟨m', rfl⟩
        simp only [iterToListAux, hit, Bool.false_eq_true, if_false, hdone]
        rw [ih m' (nextEntity gameState it) (by omega) (by omega)]

/-- The defining one-step equation of the unfiltered traversal list. -/
theorem iterToList_eq (gameState : GameState) (it : EntityIterator) :
    iterToList gameState it =
      (if it.done then []
       else
        if (nextEntity gameState it).done then []
        else (nextEntity gameState it).iterPos ::
          iterToList gameState (nextEntity gameState it)) := by
  cases hit : it.done with
  | true =>
    unfold iterToList
    cases hk : iterMeasure gameState it <;> simp [iterToListAux, hit]
  | false =>
    cases hdone : (nextEntity gameState it).done with
    | true =>
      unfold iterToList
      cases hk : iterMeasure gameState it with
      | zero => simp [iterToListAux, hit, hdone]
      | succ k => simp [iterToListAux, hit, hdone]
    | false =>
      have hlt := iterMeasure_nextEntity_lt hit hdone
      simp only [hit, Bool.false_eq_true, if_false, hdone]
      unfold iterToList
      obtain ⟨k, hk⟩ : ∃ k, iterMeasure gameState it = k + 1 := by
        refine ⟨iterMeasure gameState it - 1, ?_⟩
        omega
      rw [hk]
      simp only [iterToListAux, hit, Bool.false_eq_true, if_false, hdone]
      rw [iterToListAux_congr gameState k _ _ (by omega) le_rfl]

/-- The filtered traversal list is fuel-independent past the bound. -/
theorem iterToListNNAux_congr (gameState : GameState) :
    ∀ n m (it : EntityIterator),
      iterMeasure gameState it ≤ n → iterMeasure gameState it ≤ m →
      iterToListNNAux gameState n it = iterToListNNAux gameState m it := by
  intro n
  induction n with
  | zero =>
    intro m it hn hm
    have h0 : iterMeasure gameState it = 0 := by omega
    cases hit : it.done with
    | true => cases m <;> simp [iterToListNNAux, hit]
    | false =>
      have hdone : (nextNonNullEntity gameState it).done = true := by
        by_contra hne
        have h2 : (nextNonNullEntity gameState it).done = false := by
          cases hd : (nextNonNullEntity gameState it).done
          · rfl
          · exact absurd hd hne
        have := iterMeasure_nextNonNull_lt h2
        omega
      cases m with
      | zero => rfl
      | succ m' => simp [iterToListNNAux, hit, hdone]
  | succ n ih =>
    intro m it hn hm
    cases hit : it.done with
    | true => cases m <;> simp [iterToListNNAux, hit]
    | false =>
      cases hdone : (nextNonNullEntity gameState it).done with
      | true => cases m <;> simp [iterToListNNAux, hit, hdone]
      | false =>
        have hlt := iterMeasure_nextNonNull_lt hdone
        obtain ⟨m', rfl⟩ : ∃ m', m = m' + 1 := by
          rcases m with _ | m'
          · omega
          · exact ⟨m', rfl⟩
        simp only [iterToListNNAux, hit, Bool.false_eq_true, if_false, hdone]
        rw [ih m' (nextNonNullEntity gameState it) (by omega) (by omega)]

/-- The defining one-step equation of the filtered traversal list. -/
theorem iterToListNN_eq (gameState : GameState) (it : EntityIterator) :
    iterToListNN gameState it =
      (if it.done then []
       else
        if (nextNonNullEntity gameState it).done then []
        else (nextNonNullEntity gameState it).iterPos ::
          iterToListNN gameState (nextNonNullEntity gameState it)) := by
  cases hit : it.done with
  | true =>
    unfold iterToListNN
    cases hk : iterMeasure gameState it <;> simp [iterToListNNAux, hit]
  | false =>
    cases hdone : (nextNonNullEntity gameState it).done with
    | true =>
      unfold iterToListNN
      cases hk : iterMeasure gameState it with
      | zero => simp [iterToListNNAux, hit, hdone]
      | succ k => simp [iterToListNNAux, hit, hdone]
    | false =>
      have hlt := iterMeasure_nextNonNull_lt hdone
      simp only [hit, Bool.false_eq_true, if_false, hdone]
      unfold iterToListNN
      obtain ⟨k, hk⟩ : ∃ k, iterMeasure gameState it = k + 1 := by
        refine ⟨iterMeasure gameState it - 1, ?_⟩
        omega
      rw [hk]
      simp only [iterToListNNAux, hit, Bool.false_eq_true, if_false, hdone]
      rw [iterToListNNAux_congr gameState k _ _ (by omega) le_rfl]

/-! ### The traversal is exactly row-major order -/

theorem rangeInt_nil {a b : Int} (h : b ≤ a) : rangeInt a b = [] := by
  unfold rangeInt
  have : (b - a).toNat = 0 := by omega
  rw [this]
  rfl

theorem rangeInt_cons {a b : Int} (h : a < b) : rangeInt a b = a :: rangeInt (a + 1) b := by
  unfold rangeInt
  obtain ⟨n, hn⟩ : ∃ n, (b - a).toNat = n + 1 := ⟨(b - a).toNat - 1, by omega⟩
  have hn' : (b - (a + 1)).toNat = n := by omega
  rw [hn, hn', List.range_succ_eq_map]
  simp only [List.map_cons, List.map_map]
  have h0 : a + Int.ofNat 0 = a := by simp
  rw [h0]
  refine congrArg (a :: ·) (List.map_congr_left ?_)
  intro i hi
  simp only [Function.comp_apply, Int.ofNat_eq_coe]
  push_cast
  ring

theorem rowTail_step_x {w h x y : Int} (hx : x + 1 < w) :
    rowTail w h x y = ⟨x + 1, y⟩ :: rowTail w h (x + 1) y := by
  unfold rowTail
  rw [rangeInt_cons hx]
  rfl

theorem rowTail_step_y {w h x y : Int} (hw : 0 < w) (hx : w ≤ x + 1) (hy : y + 1 < h) :
    rowTail w h x y = ⟨0, y + 1⟩ :: rowTail w h 0 (y + 1) := by
  unfold rowTail
  rw [rangeInt_nil hx, rangeInt_cons hy, rangeInt_cons hw]
  simp only [List.map_nil, List.nil_append, List.flatMap_cons, List.map_cons,
    List.cons_append]

theorem rowTail_nil {w h x y : Int} (hx : w ≤ x + 1) (hy : h ≤ y + 1) :
    rowTail w h x y = [] := by
  unfold rowTail
  rw [rangeInt_nil hx, rangeInt_nil hy]
  rfl

/-- From any live cursor position, driving `nextEntity` to completion
emits exactly the remaining positions in row-major order. -/
theorem iterToList_live (gameState : GameState) (hw : 0 < gameState.worldDim.x) :
    ∀ n (hdl : Option EntityHandle) (x y : Int),
      iterMeasure gameState ⟨hdl, ⟨x, y⟩, false⟩ ≤ n →
      iterToList gameState ⟨hdl, ⟨x, y⟩, false⟩ =
        rowTail gameState.worldDim.x gameState.worldDim.y x y := by
  intro n
  induction n using Nat.strong_induction_on with
  | _ n ih =>
    intro hdl x y hmeas
    have hit : (⟨hdl, ⟨x, y⟩, false⟩ : EntityIterator).done = false := rfl
    by_cases hx : x + 1 ≥ gameState.worldDim.x
    · by_cases hy : y + 1 ≥ gameState.worldDim.y
      · -- traversal finished: the very next step reaches done
        have hnext : nextEntity gameState ⟨hdl, ⟨x, y⟩, false⟩ =
            ⟨none, ⟨0, y + 1⟩, true⟩ := by
          simp [nextEntity, hx, hy]
        rw [iterToList_eq, hnext]
        simp [rowTail_nil hx hy]
      · -- wrap to the start of the next row
        push_neg at hy
        have hnext : nextEntity gameState ⟨hdl, ⟨x, y⟩, false⟩ =
            ⟨some (getEntityHandleAtPos gameState ⟨0, y + 1⟩), ⟨0, y + 1⟩, false⟩ := by
          simp [nextEntity, hx, not_le.mpr hy]
        have hlt : iterMeasure gameState
            (⟨some (getEntityHandleAtPos gameState ⟨0, y + 1⟩), ⟨0, y + 1⟩, false⟩ :
              EntityIterator) <
            iterMeasure gameState ⟨hdl, ⟨x, y⟩, false⟩ := by
          have := @iterMeasure_nextEntity_lt gameState ⟨hdl, ⟨x, y⟩, false⟩
            rfl (by rw [hnext])
          rwa [hnext] at this
        rw [iterToList_eq, hnext]
        simp only [Bool.false_eq_true, if_false]
        rw [ih (iterMeasure gameState
            (⟨some (getEntityHandleAtPos gameState ⟨0, y + 1⟩), ⟨0, y + 1⟩, false⟩ :
              EntityIterator)) (by omega) _ 0 (y + 1) le_rfl]
        exact (rowTail_step_y hw hx hy).symm
    · -- advance within the row
      push_neg at hx
      have hnext : nextEntity gameState ⟨hdl, ⟨x, y⟩, false⟩ =
          ⟨some (getEntityHandleAtPos gameState ⟨x + 1, y⟩), ⟨x + 1, y⟩, false⟩ := by
        simp [nextEntity, not_le.mpr hx]
      have hlt : iterMeasure gameState
          (⟨some (getEntityHandleAtPos gameState ⟨x + 1, y⟩), ⟨x + 1, y⟩, false⟩ :
            EntityIterator) <
          iterMeasure gameState ⟨hdl, ⟨x, y⟩, false⟩ := by
        have := @iterMeasure_nextEntity_lt gameState ⟨hdl, ⟨x, y⟩, false⟩
          rfl (by rw [hnext])
        rwa [hnext] at this
      rw [iterToList_eq, hnext]
      simp only [Bool.false_eq_true, if_false]
      rw [ih (iterMeasure gameState
          (⟨some (getEntityHandleAtPos gameState ⟨x + 1, y⟩), ⟨x + 1, y⟩, false⟩ :
            EntityIterator)) (by omega) _ (x + 1) y le_rfl]
      exact (rowTail_step_x hx).symm

/-- `rowMajor` decomposes as its first row followed by the rest. -/
theorem rowMajor_eq_rowTail {w h : Int} (hw : 0 < w) (hh : 0 < h) :
    rowMajor w h = rowTail w h (-1) 0 := by
  unfold rowMajor rowTail
  rw [rangeInt_cons hh]
  norm_num

/-- Driving the unfiltered iterator from its initial state emits exactly
the row-major enumeration of the grid. -/
theorem iterToList_begin (gameState : GameState)
    (hw : 0 < gameState.worldDim.x) (hh : 0 < gameState.worldDim.y) :
    iterToList gameState beginEntityIteration =
      rowMajor gameState.worldDim.x gameState.worldDim.y := by
  rw [rowMajor_eq_rowTail hw hh]
  exact iterToList_live gameState hw _ none (-1) 0 le_rfl

/-- On a live iterator step, the skip test of `nextNonNullEntity` is
exactly "the entity resolved at the new position has kind `None`". -/
theorem kindIsNone_nextEntity (gameState : GameState) (it : EntityIterator)
    (h2 : (nextEntity gameState it).done = false) :
    kindIsNone (nextEntity gameState it) ↔
      entityIsNoneAt gameState (nextEntity gameState it).iterPos := by
  unfold kindIsNone entityIsNoneAt
  rw [nextEntity_handle h2]
  rfl

/-- The filtered traversal is the unfiltered traversal with the
`None`-kind cells removed. -/
theorem iterToListNN_filter (gameState : GameState) :
    ∀ it, iterToListNN gameState it =
      (iterToList gameState it).filter (fun p => ¬ entityIsNoneAt gameState p) := by
  have main : ∀ n it, iterMeasure gameState it ≤ n →
      iterToListNN gameState it =
        (iterToList gameState it).filter (fun p => ¬ entityIsNoneAt gameState p) := by
    intro n
    induction n using Nat.strong_induction_on with
    | _ n ih =>
      intro it hmeas
      cases hit : it.done with
      | true =>
        rw [iterToListNN_eq, iterToList_eq]
        simp [hit]
      | false =>
        cases hd1 : (nextEntity gameState it).done with
        | true =>
          have hnn : nextNonNullEntity gameState it = nextEntity gameState it := by
            rw [nextNonNullEntity_eq, if_neg]
            rintro ⟨hfalse, -⟩
            rw [hd1] at hfalse
            cases hfalse
          rw [iterToListNN_eq, iterToList_eq]
          simp [hit, hd1, hnn]
        | false =>
          have hlt : iterMeasure gameState (nextEntity gameState it) <
              iterMeasure gameState it := iterMeasure_nextEntity_lt hit hd1
          by_cases hk : kindIsNone (nextEntity gameState it)
          · -- the new cell is skipped
            have hnn : nextNonNullEntity gameState it =
                nextNonNullEntity gameState (nextEntity gameState it) := by
              rw [nextNonNullEntity_eq, if_pos ⟨hd1, hk⟩]
            have hpred : entityIsNoneAt gameState (nextEntity gameState it).iterPos :=
              (kindIsNone_nextEntity gameState it hd1).mp hk
            have hNN : iterToListNN gameState it =
                iterToListNN gameState (nextEntity gameState it) := by
              rw [iterToListNN_eq, iterToListNN_eq gameState (nextEntity gameState it)]
              rw [hit, hd1]
              simp only [Bool.false_eq_true, if_false]
              rw [hnn]
            rw [hNN, iterToList_eq]
            rw [hit]
            simp only [Bool.false_eq_true, if_false]
            rw [hd1]
            simp only [Bool.false_eq_true, if_false]
            rw [List.filter_cons_of_neg (by simpa using hpred)]
            exact ih (iterMeasure gameState (nextEntity gameState it)) (by omega) _ le_rfl
          · -- the new cell is kept
            have hnn : nextNonNullEntity gameState it = nextEntity gameState it := by
              rw [nextNonNullEntity_eq, if_neg]
              rintro ⟨-, hkk⟩
              exact hk hkk
            have hpred : ¬ entityIsNoneAt gameState (nextEntity gameState it).iterPos :=
              fun hc => hk ((kindIsNone_nextEntity gameState it hd1).mpr hc)
            rw [iterToListNN_eq, iterToList_eq]
            rw [hit]
            simp only [Bool.false_eq_true, if_false]
            rw [hnn, hd1]
            simp only [Bool.false_eq_true, if_false]
            rw [List.filter_cons_of_pos (by simpa using hpred)]
            rw [ih (iterMeasure gameState (nextEntity gameState it)) (by omega) _ le_rfl]
  intro it
  exact main (iterMeasure gameState it) it le_rfl

/-- Driving the filtered iterator from its initial state emits exactly
the occupied cells of the grid in row-major order. -/
theorem iterToListNN_begin (gameState : GameState)
    (hw : 0 < gameState.worldDim.x) (hh : 0 < gameState.worldDim.y) :
    iterToListNN gameState beginEntityIteration = occupiedSeq gameState := by
  rw [iterToListNN_filter, iterToList_begin gameState hw hh]
  rfl

/-! ### The traversal only reads the dimensions and the kinds -/

/-- The step bound only depends on the control fields and the grid
dimensions. -/
theorem iterMeasure_sim {gsA gsB : GameState} (hdim : gsA.worldDim = gsB.worldDim)
    {a b : EntityIterator} (hab : iterSim a b) :
    iterMeasure gsA a = iterMeasure gsB b := by
  obtain ⟨h1, h2⟩ := hab
  unfold iterMeasure
  rw [h1, h2, hdim]

theorem nextEntity_sim {gsA gsB : GameState} (hdim : gsA.worldDim = gsB.worldDim)
    {a b : EntityIterator} (hab : iterSim a b) :
    iterSim (nextEntity gsA a) (nextEntity gsB b) := by
  obtain ⟨h1, h2⟩ := hab
  unfold nextEntity
  rw [h1, h2, hdim]
  by_cases hd : b.done = true
  · rw [if_pos hd, if_pos hd]
    exact ⟨h1, h2⟩
  · rw [if_neg hd, if_neg hd]
    dsimp only
    by_cases hx : b.iterPos.x + 1 ≥ gsB.worldDim.x
    · rw [if_pos hx, if_pos hx]
      by_cases hy : b.iterPos.y + 1 ≥ gsB.worldDim.y
      · rw [if_pos hy, if_pos hy]
        exact ⟨rfl, rfl⟩
      · rw [if_neg hy, if_neg hy]
        exact ⟨rfl, rfl⟩
    · rw [if_neg hx, if_neg hx]
      exact ⟨rfl, rfl⟩

/-- Resolving the same position in two states with equal dimensions and
equal kinds yields entities of equal kind (and equal presence). -/
theorem getEntityHandleAtPos_kind {gsA gsB : GameState}
    (hdim : gsA.worldDim = gsB.worldDim)
    (hkind : ∀ j, kindAt gsA j = kindAt gsB j) (p : V2) :
    (((getEntityHandleAtPos gsA p).entity).map (·.kind)) =
      (((getEntityHandleAtPos gsB p).entity).map (·.kind)) := by
  unfold getEntityHandleAtPos
  rw [hdim]
  by_cases hb : posIsInBounds p gsB.worldDim
  · rw [if_pos hb, if_pos hb]
    exact hkind ((p.y * gsB.worldDim.x + p.x).toNat)
  · rw [if_neg hb, if_neg hb]

theorem kindIsNone_sim {gsA gsB : GameState} (hdim : gsA.worldDim = gsB.worldDim)
    (hkind : ∀ j, kindAt gsA j = kindAt gsB j) {a b : EntityIterator}
    (hab : iterSim a b) (h2A : (nextEntity gsA a).done = false)
    (h2B : (nextEntity gsB b).done = false) :
    (kindIsNone (nextEntity gsA a) ↔ kindIsNone (nextEntity gsB b)) := by
  have hsim := nextEntity_sim hdim hab
  unfold kindIsNone
  rw [nextEntity_handle h2A, nextEntity_handle h2B, hsim.2]
  rw [show ∀ (hh : EntityHandle), (some hh).bind (·.entity) = hh.entity from fun _ => rfl]
  rw [show ∀ (hh : EntityHandle), (some hh).bind (·.entity) = hh.entity from fun _ => rfl]
  rw [getEntityHandleAtPos_kind hdim hkind]

theorem nextNonNull_sim {gsA gsB : GameState} (hdim : gsA.worldDim = gsB.worldDim)
    (hkind : ∀ j, kindAt gsA j = kindAt gsB j) :
    ∀ n (a b : EntityIterator), iterMeasure gsA a ≤ n → iterSim a b →
      iterSim (nextNonNullEntity gsA a) (nextNonNullEntity gsB b) := by
  intro n
  induction n using Nat.strong_induction_on with
  | _ n ih =>
    intro a b hmeas hab
    have hsim1 := nextEntity_sim hdim hab
    rw [nextNonNullEntity_eq gsA a, nextNonNullEntity_eq gsB b]
    by_cases hgA : (nextEntity gsA a).done = false ∧ kindIsNone (nextEntity gsA a)
    · have hgB : (nextEntity gsB b).done = false ∧ kindIsNone (nextEntity gsB b) := by
        refine ⟨hsim1.1 ▸ hgA.1, ?_⟩
        exact (kindIsNone_sim hdim hkind hab hgA.1 (hsim1.1 ▸ hgA.1)).mp hgA.2
      rw [if_pos hgA, if_pos hgB]
      have haNotDone : a.done = false := by
        cases h : a.done
        · rfl
        · rw [nextEntity_of_done h, h] at hgA
          exact absurd hgA.1 (by simp)
      have hlt := iterMeasure_nextEntity_lt haNotDone hgA.1
      exact ih (iterMeasure gsA (nextEntity gsA a)) (by omega) _ _ le_rfl hsim1
    · have hgB : ¬ ((nextEntity gsB b).done = false ∧ kindIsNone (nextEntity gsB b)) := by
        rintro ⟨hb1, hb2⟩
        have ha1 : (nextEntity gsA a).done = false := hsim1.1 ▸ hb1
        exact hgA ⟨ha1, (kindIsNone_sim hdim hkind hab ha1 hb1).mpr hb2⟩
      rw [if_neg hgA, if_neg hgB]
      exact hsim1

/-- The filtered traversal list only depends on the grid dimensions and
the kind stored at each index. -/
theorem iterToListNN_sim {gsA gsB : GameState} (hdim : gsA.worldDim = gsB.worldDim)
    (hkind : ∀ j, kindAt gsA j = kindAt gsB j) :
    ∀ n (a b : EntityIterator), iterMeasure gsA a ≤ n → iterSim a b →
      iterToListNN gsA a = iterToListNN gsB b := by
  intro n
  induction n using Nat.strong_induction_on with
  | _ n ih =>
    intro a b hmeas hab
    rw [iterToListNN_eq gsA a, iterToListNN_eq gsB b]
    rw [hab.1]
    cases hbdone : b.done with
    | true => rfl
    | false =>
      simp only [Bool.false_eq_true, if_false]
      have hnnsim := nextNonNull_sim hdim hkind (iterMeasure gsA a) a b le_rfl hab
      rw [hnnsim.1, hnnsim.2]
      cases hnnB : (nextNonNullEntity gsB b).done with
      | true => rfl
      | false =>
        simp only [Bool.false_eq_true, if_false]
        have hnnA : (nextNonNullEntity gsA a).done = false := by
          rw [hnnsim.1, hnnB]
        have hlt := iterMeasure_nextNonNull_lt hnnA
        rw [ih (iterMeasure gsA (nextNonNullEntity gsA a)) (by omega) _ _ le_rfl hnnsim]

/-! ### The update loop is the fold of the body over the occupied cells -/

/-- The update loop, started from any live iterator whose handle was
resolved against the current state, equals the fold of the body over the
current position followed by the positions the filtered iterator will
still emit. -/
theorem tickLoop_eq_tickFold (deltaTime : ℚ) :
    ∀ n (gameState : GameState) (it : EntityIterator),
      iterMeasure gameState it ≤ n →
      (it.done = false →
        it.handle = some (getEntityHandleAtPos gameState it.iterPos)) →
      tickLoop gameState it deltaTime =
        tickFold gameState
          (if it.done then [] else it.iterPos :: iterToListNN gameState it) deltaTime := by
  intro n
  induction n using Nat.strong_induction_on with
  | _ n ih =>
    intro gameState it hmeas hh
    cases hit : it.done with
    | true =>
      rw [tickLoop_eq]
      simp [hit, tickFold]
    | false =>
      have hh' := hh hit
      simp only [hit, Bool.false_eq_true, if_false]
      rw [tickLoop_eq, hit]
      simp only [Bool.false_eq_true, if_false]
      rw [hh']
      set gs1 := tickBody gameState (getEntityHandleAtPos gameState it.iterPos) deltaTime
        with hgs1
      have hstep : tickStep deltaTime gameState it.iterPos = gs1 := rfl
      have hdim : gameState.worldDim = gs1.worldDim := by
        rw [hgs1, tickBody_worldDim]
      have hkind : ∀ j, kindAt gameState j = kindAt gs1 j := by
        intro j
        rw [hgs1, kindAt_tickBody]
      have hNNlist : iterToListNN gameState it = iterToListNN gs1 it :=
        iterToListNN_sim hdim hkind (iterMeasure gameState it) it it le_rfl ⟨rfl, rfl⟩
      have hmeq : iterMeasure gs1 it = iterMeasure gameState it :=
        iterMeasure_sim hdim.symm ⟨rfl, rfl⟩
      rw [show tickFold gameState (it.iterPos :: iterToListNN gameState it) deltaTime =
          tickFold gs1 (iterToListNN gameState it) deltaTime from rfl]
      rw [hNNlist]
      rw [iterToListNN_eq gs1 it, hit]
      simp only [Bool.false_eq_true, if_false]
      cases hd1 : (nextNonNullEntity gs1 it).done with
      | true =>
        simp only [if_true]
        rfl
      | false =>
        simp only [Bool.false_eq_true, if_false]
        have hlt : iterMeasure gs1 (nextNonNullEntity gs1 it) < iterMeasure gameState it := by
          have := iterMeasure_nextNonNull_lt hd1
          omega
        have := ih (iterMeasure gs1 (nextNonNullEntity gs1 it)) (by omega) gs1
          (nextNonNullEntity gs1 it) le_rfl
          (fun hd => nextNonNullEntity_handle hd)
        rw [this]
        rw [hd1]
        simp only [Bool.false_eq_true, if_false]

/-- The update pass is the fold of the body over the positions the
filtered iterator emits from its initial state. -/
theorem gameUpdateAndRender_eq_fold (gameState : GameState) (deltaTime : ℚ) :
    gameUpdateAndRender gameState deltaTime =
      tickFold gameState (iterToListNN gameState beginEntityIteration) deltaTime := by
  unfold gameUpdateAndRender
  have hbridge := tickLoop_eq_tickFold deltaTime
    (iterMeasure gameState (nextNonNullEntity gameState beginEntityIteration))
    gameState (nextNonNullEntity gameState beginEntityIteration) le_rfl
    (fun hd => nextNonNullEntity_handle hd)
  rw [hbridge, iterToListNN_eq gameState beginEntityIteration]
  rfl

/-- The update pass, on a grid with positive dimensions, is the fold of
the body over the occupied cells in row-major order. -/
theorem gameUpdateAndRender_eq_fold_occupied (gameState : GameState) (deltaTime : ℚ)
    (hw : 0 < gameState.worldDim.x) (hh : 0 < gameState.worldDim.y) :
    gameUpdateAndRender gameState deltaTime =
      tickFold gameState (occupiedSeq gameState) deltaTime := by
  rw [gameUpdateAndRender_eq_fold, iterToListNN_begin gameState hw hh]

/-! ### Per-cell analysis of the fold -/

theorem getEntityHandleAtPos_of_inBounds {gameState : GameState} {p : V2}
    (hp : posIsInBounds p gameState.worldDim) :
    getEntityHandleAtPos gameState p =
      ⟨gameState.storage[gridIndex gameState.worldDim.x p]?,
        p.y * gameState.worldDim.x + p.x, p⟩ := by
  unfold getEntityHandleAtPos
  rw [if_pos hp]
  rfl

theorem getEntityHandleAtPos_of_out {gameState : GameState} {p : V2}
    (hp : ¬ posIsInBounds p gameState.worldDim) :
    getEntityHandleAtPos gameState p = ⟨none, 0, ⟨0, 0⟩⟩ := by
  unfold getEntityHandleAtPos
  rw [if_neg hp]

/-- For an in-bounds position the handle's `index` denotes `gridIndex`. -/
theorem index_toNat_of_inBounds {gameState : GameState} {p : V2}
    (hp : posIsInBounds p gameState.worldDim) :
    (p.y * gameState.worldDim.x + p.x).toNat = gridIndex gameState.worldDim.x p := rfl

theorem tickBody_of_none {gameState : GameState} {handle : EntityHandle}
    (h : handle.entity = none) (deltaTime : ℚ) :
    tickBody gameState handle deltaTime = gameState := by
  unfold tickBody
  rw [h]

theorem tickStep_of_out {gameState : GameState} {p : V2} (deltaTime : ℚ)
    (hp : ¬ posIsInBounds p gameState.worldDim) :
    tickStep deltaTime gameState p = gameState := by
  unfold tickStep
  rw [getEntityHandleAtPos_of_out hp]
  exact tickBody_of_none rfl deltaTime

theorem tickStep_getElem?_ne {gameState : GameState} {p : V2} (deltaTime : ℚ)
    (j : Nat) (hj : j ≠ gridIndex gameState.worldDim.x p) :
    (tickStep deltaTime gameState p).storage[j]? = gameState.storage[j]? := by
  by_cases hp : posIsInBounds p gameState.worldDim
  · unfold tickStep
    rw [getEntityHandleAtPos_of_inBounds hp]
    exact tickBody_getElem?_ne _ _ _ j hj
  · rw [tickStep_of_out deltaTime hp]

@[simp] theorem tickStep_worldDim (gameState : GameState) (p : V2) (deltaTime : ℚ) :
    (tickStep deltaTime gameState p).worldDim = gameState.worldDim :=
  tickBody_worldDim _ _ _

@[simp] theorem tickStep_cursor (gameState : GameState) (p : V2) (deltaTime : ℚ) :
    (tickStep deltaTime gameState p).cursor = gameState.cursor :=
  tickBody_cursor _ _ _

@[simp] theorem tickStep_referenceCycleDuration (gameState : GameState) (p : V2)
    (deltaTime : ℚ) :
    (tickStep deltaTime gameState p).referenceCycleDuration =
      gameState.referenceCycleDuration :=
  tickBody_referenceCycleDuration _ _ _

@[simp] theorem tickStep_cellDimPx (gameState : GameState) (p : V2) (deltaTime : ℚ) :
    (tickStep deltaTime gameState p).cellDimPx = gameState.cellDimPx :=
  tickBody_cellDimPx _ _ _

@[simp] theorem tickStep_worldMargins (gameState : GameState) (p : V2) (deltaTime : ℚ) :
    (tickStep deltaTime gameState p).worldMargins = gameState.worldMargins :=
  tickBody_worldMargins _ _ _

@[simp] theorem tickStep_lastTimestamp (gameState : GameState) (p : V2) (deltaTime : ℚ) :
    (tickStep deltaTime gameState p).lastTimestamp = gameState.lastTimestamp :=
  tickBody_lastTimestamp _ _ _

@[simp] theorem tickStep_gridCellBorderWidthPx (gameState : GameState) (p : V2)
    (deltaTime : ℚ) :
    (tickStep deltaTime gameState p).gridCellBorderWidthPx =
      gameState.gridCellBorderWidthPx :=
  tickBody_gridCellBorderWidthPx _ _ _

@[simp] theorem tickStep_length (gameState : GameState) (p : V2) (deltaTime : ℚ) :
    (tickStep deltaTime gameState p).storage.length = gameState.storage.length :=
  tickBody_length _ _ _

theorem kindAt_tickStep (gameState : GameState) (p : V2) (deltaTime : ℚ) (j : Nat) :
    kindAt (tickStep deltaTime gameState p) j = kindAt gameState j :=
  kindAt_tickBody _ _ _ j

@[simp] theorem tickFold_worldDim (deltaTime : ℚ) :
    ∀ (ps : List V2) (gameState : GameState),
      (tickFold gameState ps deltaTime).worldDim = gameState.worldDim := by
  intro ps
  induction ps with
  | nil => intro gameState; rfl
  | cons p rest ih =>
    intro gameState
    rw [tickFold, List.foldl_cons]
    rw [show List.foldl (tickStep deltaTime) (tickStep deltaTime gameState p) rest =
        tickFold (tickStep deltaTime gameState p) rest deltaTime from rfl]
    rw [ih, tickStep_worldDim]

@[simp] theorem tickFold_cursor (deltaTime : ℚ) :
    ∀ (ps : List V2) (gameState : GameState),
      (tickFold gameState ps deltaTime).cursor = gameState.cursor := by
  intro ps
  induction ps with
  | nil => intro gameState; rfl
  | cons p rest ih =>
    intro gameState
    rw [tickFold, List.foldl_cons]
    rw [show List.foldl (tickStep deltaTime) (tickStep deltaTime gameState p) rest =
        tickFold (tickStep deltaTime gameState p) rest deltaTime from rfl]
    rw [ih, tickStep_cursor]

@[simp] theorem tickFold_referenceCycleDuration (deltaTime : ℚ) :
    ∀ (ps : List V2) (gameState : GameState),
      (tickFold gameState ps deltaTime).referenceCycleDuration =
        gameState.referenceCycleDuration := by
  intro ps
  induction ps with
  | nil => intro gameState; rfl
  | cons p rest ih =>
    intro gameState
    rw [tickFold, List.foldl_cons]
    rw [show List.foldl (tickStep deltaTime) (tickStep deltaTime gameState p) rest =
        tickFold (tickStep deltaTime gameState p) rest deltaTime from rfl]
    rw [ih, tickStep_referenceCycleDuration]

@[simp] theorem tickFold_cellDimPx (deltaTime : ℚ) :
    ∀ (ps : List V2) (gameState : GameState),
      (tickFold gameState ps deltaTime).cellDimPx = gameState.cellDimPx := by
  intro ps
  induction ps with
  | nil => intro gameState; rfl
  | cons p rest ih =>
    intro gameState
    rw [tickFold, List.foldl_cons]
    rw [show List.foldl (tickStep deltaTime) (tickStep deltaTime gameState p) rest =
        tickFold (tickStep deltaTime gameState p) rest deltaTime from rfl]
    rw [ih, tickStep_cellDimPx]

@[simp] theorem tickFold_worldMargins (deltaTime : ℚ) :
    ∀ (ps : List V2) (gameState : GameState),
      (tickFold gameState ps deltaTime).worldMargins = gameState.worldMargins := by
  intro ps
  induction ps with
  | nil => intro gameState; rfl
  | cons p rest ih =>
    intro gameState
    rw [tickFold, List.foldl_cons]
    rw [show List.foldl (tickStep deltaTime) (tickStep deltaTime gameState p) rest =
        tickFold (tickStep deltaTime gameState p) rest deltaTime from rfl]
    rw [ih, tickStep_worldMargins]

@[simp] theorem tickFold_lastTimestamp (deltaTime : ℚ) :
    ∀ (ps : List V2) (gameState : GameState),
      (tickFold gameState ps deltaTime).lastTimestamp = gameState.lastTimestamp := by
  intro ps
  induction ps with
  | nil => intro gameState; rfl
  | cons p rest ih =>
    intro gameState
    rw [tickFold, List.foldl_cons]
    rw [show List.foldl (tickStep deltaTime) (tickStep deltaTime gameState p) rest =
        tickFold (tickStep deltaTime gameState p) rest deltaTime from rfl]
    rw [ih, tickStep_lastTimestamp]

@[simp] theorem tickFold_gridCellBorderWidthPx (deltaTime : ℚ) :
    ∀ (ps : List V2) (gameState : GameState),
      (tickFold gameState ps deltaTime).gridCellBorderWidthPx =
        gameState.gridCellBorderWidthPx := by
  intro ps
  induction ps with
  | nil => intro gameState; rfl
  | cons p rest ih =>
    intro gameState
    rw [tickFold, List.foldl_cons]
    rw [show List.foldl (tickStep deltaTime) (tickStep deltaTime gameState p) rest =
        tickFold (tickStep deltaTime gameState p) rest deltaTime from rfl]
    rw [ih, tickStep_gridCellBorderWidthPx]

@[simp] theorem tickFold_length (deltaTime : ℚ) :
    ∀ (ps : List V2) (gameState : GameState),
      (tickFold gameState ps deltaTime).storage.length = gameState.storage.length := by
  intro ps
  induction ps with
  | nil => intro gameState; rfl
  | cons p rest ih =>
    intro gameState
    rw [tickFold, List.foldl_cons]
    rw [show List.foldl (tickStep deltaTime) (tickStep deltaTime gameState p) rest =
        tickFold (tickStep deltaTime gameState p) rest deltaTime from rfl]
    rw [ih, tickStep_length]

theorem kindAt_tickFold (deltaTime : ℚ) :
    ∀ (ps : List V2) (gameState : GameState) (j : Nat),
      kindAt (tickFold gameState ps deltaTime) j = kindAt gameState j := by
  intro ps
  induction ps with
  | nil => intro gameState j; rfl
  | cons p rest ih =>
    intro gameState j
    rw [tickFold, List.foldl_cons]
    rw [show List.foldl (tickStep deltaTime) (tickStep deltaTime gameState p) rest =
        tickFold (tickStep deltaTime gameState p) rest deltaTime from rfl]
    rw [ih, kindAt_tickStep]

/-- The fold over a list of positions whose indices all avoid `j` leaves
the cell at `j` untouched. -/
theorem tickFold_getElem?_stable (deltaTime : ℚ) :
    ∀ (ps : List V2) (gameState : GameState) (j : Nat),
      (∀ q ∈ ps, j ≠ gridIndex gameState.worldDim.x q) →
      (tickFold gameState ps deltaTime).storage[j]? = gameState.storage[j]? := by
  intro ps
  induction ps with
  | nil => intro gameState j _; rfl
  | cons p rest ih =>
    intro gameState j hj
    rw [tickFold, List.foldl_cons]
    rw [show List.foldl (tickStep deltaTime) (tickStep deltaTime gameState p) rest =
        tickFold (tickStep deltaTime gameState p) rest deltaTime from rfl]
    rw [ih (tickStep deltaTime gameState p) j ?hrest]
    · exact tickStep_getElem?_ne deltaTime j (hj p (List.mem_cons_self p rest))
    case hrest =>
      intro q hq
      rw [tickStep_worldDim]
      exact hj q (List.mem_cons_of_mem p hq)

/-- Splitting the fold at one visit. -/
theorem tickFold_append (gameState : GameState) (l1 l2 : List V2) (deltaTime : ℚ) :
    tickFold gameState (l1 ++ l2) deltaTime =
      tickFold (tickFold gameState l1 deltaTime) l2 deltaTime := by
  unfold tickFold
  rw [List.foldl_append]

/-- The final cell value at a visited position is the value the visit
(body applied at the intermediate state) stored there, provided no later
visit writes the same index. -/
theorem tickFold_getElem?_visit (gameState : GameState) (l1 l2 : List V2) (p : V2)
    (deltaTime : ℚ)
    (hl2 : ∀ q ∈ l2, gridIndex gameState.worldDim.x p ≠ gridIndex gameState.worldDim.x q) :
    (tickFold gameState (l1 ++ p :: l2) deltaTime).storage[gridIndex gameState.worldDim.x p]? =
      (tickStep deltaTime (tickFold gameState l1 deltaTime) p).storage[gridIndex
        gameState.worldDim.x p]? := by
  rw [tickFold_append]
  rw [show tickFold (tickFold gameState l1 deltaTime) (p :: l2) deltaTime =
      tickFold (tickStep deltaTime (tickFold gameState l1 deltaTime) p) l2 deltaTime from rfl]
  refine tickFold_getElem?_stable deltaTime l2 _ _ ?_
  intro q hq
  rw [tickStep_worldDim, tickFold_worldDim]
  exact hl2 q hq

/-! ### Order and distinctness of the traversal positions -/

theorem mem_rangeInt {a b t : Int} : t ∈ rangeInt a b ↔ a ≤ t ∧ t < b := by
  unfold rangeInt
  simp only [List.mem_map, List.mem_range, Int.ofNat_eq_coe]
  constructor
  · rintro ⟨i, hi, rfl⟩
    omega
  · rintro ⟨h1, h2⟩
    exact ⟨(t - a).toNat, by omega, by omega⟩

theorem mem_rowMajor {w h : Int} {p : V2} :
    p ∈ rowMajor w h ↔ posIsInBounds p ⟨w, h⟩ := by
  unfold rowMajor posIsInBounds
  simp only [List.mem_flatMap, List.mem_map, mem_rangeInt]
  constructor
  · rintro ⟨y, hy, x, hx, rfl⟩
    exact ⟨hx.1, hx.2, hy.1, hy.2⟩
  · rintro ⟨h1, h2, h3, h4⟩
    exact ⟨p.y, ⟨h3, h4⟩, p.x, ⟨h1, h2⟩, rfl⟩

theorem pairwise_rangeInt (a b : Int) : (rangeInt a b).Pairwise (· < ·) := by
  unfold rangeInt
  rw [List.pairwise_map]
  refine (List.pairwise_lt_range _).imp (fun hij => ?_)
  simp only [Int.ofNat_eq_coe]
  omega

/-- Row-major order: positions are emitted by strictly increasing row,
and within a row by strictly increasing column. -/
theorem pairwise_rowMajor (w h : Int) :
    (rowMajor w h).Pairwise (fun a b => a.y < b.y ∨ (a.y = b.y ∧ a.x < b.x)) := by
  unfold rowMajor
  rw [List.pairwise_flatMap]
  constructor
  · intro y hy
    rw [List.pairwise_map]
    exact (pairwise_rangeInt 0 w).imp (fun hab => Or.inr ⟨rfl, hab⟩)
  · refine (pairwise_rangeInt 0 h).imp ?_
    intro y1 y2 h12
    rintro p hp q hq
    simp only [List.mem_map] at hp hq
    obtain ⟨x1, -, rfl⟩ := hp
    obtain ⟨x2, -, rfl⟩ := hq
    exact Or.inl h12

/-- The raster order of positions is reflected in the storage indices. -/
theorem gridIndex_lt {w : Int} {a b : V2}
    (ha : 0 ≤ a.x ∧ a.x < w ∧ 0 ≤ a.y) (hb : 0 ≤ b.x ∧ b.x < w ∧ 0 ≤ b.y)
    (hord : a.y < b.y ∨ (a.y = b.y ∧ a.x < b.x)) :
    gridIndex w a < gridIndex w b := by
  unfold gridIndex
  have haw : 0 ≤ a.y * w := mul_nonneg (by omega) (by omega)
  have hbw : 0 ≤ b.y * w := mul_nonneg (by omega) (by omega)
  rcases hord with hlt | ⟨heq, hx⟩
  · have hstep : (a.y + 1) * w ≤ b.y * w :=
      mul_le_mul_of_nonneg_right (by omega) (by omega)
    rw [add_mul, one_mul] at hstep
    omega
  · rw [heq]
    omega

/-- Distinct occupied cells of one traversal live at distinct storage
indices (in strictly increasing order). -/
theorem pairwise_gridIndex_occupiedSeq (gameState : GameState) :
    (occupiedSeq gameState).Pairwise
      (fun a b => gridIndex gameState.worldDim.x a < gridIndex gameState.worldDim.x b) := by
  unfold occupiedSeq
  have hsub : List.Sublist
      ((rowMajor gameState.worldDim.x gameState.worldDim.y).filter
        (fun p => decide (¬ entityIsNoneAt gameState p)))
      (rowMajor gameState.worldDim.x gameState.worldDim.y) :=
    List.filter_sublist _
  refine List.Pairwise.sublist hsub ?_
  refine List.Pairwise.imp_of_mem ?_
    (pairwise_rowMajor gameState.worldDim.x gameState.worldDim.y)
  intro a b hma hmb hord
  rw [mem_rowMajor] at hma hmb
  obtain ⟨ha1, ha2, ha3, ha4⟩ := hma
  obtain ⟨hb1, hb2, hb3, hb4⟩ := hmb
  exact gridIndex_lt ⟨ha1, ha2, ha3⟩ ⟨hb1, hb2, hb3⟩ hord

/-- Membership in the occupied traversal. -/
theorem mem_occupiedSeq {gameState : GameState} {p : V2} :
    p ∈ occupiedSeq gameState ↔
      posIsInBounds p gameState.worldDim ∧ ¬ entityIsNoneAt gameState p := by
  unfold occupiedSeq
  rw [List.mem_filter]
  constructor
  · rintro ⟨hmem, hpred⟩
    rw [mem_rowMajor] at hmem
    refine ⟨hmem, ?_⟩
    simpa using hpred
  · rintro ⟨hb, hpred⟩
    refine ⟨?_, by simpa using hpred⟩
    rw [mem_rowMajor]
    exact hb

/-- Splitting a pairwise-ordered list at an element, with a later element
landing in the tail. -/
theorem pairwise_mem_split {α : Type _} {R : α → α → Prop} {L : List α}
    (hpw : L.Pairwise R) {p q : α} (hp : p ∈ L) (hq : q ∈ L) (hR : R p q)
    (hasym : ∀ a b, R a b → R b a → False) :
    ∃ l1 l2, L = l1 ++ p :: l2 ∧ q ∈ l2 := by
  obtain ⟨l1, l2, rfl⟩ := List.append_of_mem hp
  refine ⟨l1, l2, rfl, ?_⟩
  rw [List.mem_append, List.mem_cons] at hq
  rcases hq with hq1 | hq2 | hq3
  · exfalso
    rw [List.pairwise_append] at hpw
    exact hasym p q hR (hpw.2.2 q hq1 p (List.mem_cons_self p l2))
  · exfalso
    rw [hq2] at hR
    exact hasym _ _ hR hR
  · exact hq3

/-! ### What one visit stores at its own cell -/

theorem rateAt_modifyEntityAt (gameState : GameState) (i j : Nat) (f : Entity → Entity)
    (hf : ∀ e, (f e).currentRate = e.currentRate) :
    rateAt (modifyEntityAt gameState i f) j = rateAt gameState j := by
  by_cases hij : j = i
  · subst hij
    cases h : gameState.storage[j]? with
    | none => rw [modifyEntityAt_of_none gameState j f h]
    | some e =>
      unfold rateAt
      rw [h, modifyEntityAt_getElem?_self gameState j f h]
      simp [hf]
  · unfold rateAt
    rw [modifyEntityAt_getElem?_ne gameState i j f hij]

/-- Whatever `startWorkingConditionally` decides, it stores at the
handle's own cell the old entity with only `currentRate` replaced. -/
theorem startWorkingConditionally_shape (gameState : GameState) (ix : Int) (pp : V2)
    (e : Entity) (cond : EntityKind) (eff : ℚ)
    (he : gameState.storage[ix.toNat]? = some e) :
    ∃ r : ℚ,
      (startWorkingConditionally gameState ⟨some e, ix, pp⟩ cond eff).storage[ix.toNat]? =
        some ⟨e.kind, r, e.cycleProgress⟩ := by
  unfold startWorkingConditionally
  dsimp only
  have hgs0 : (modifyEntityAt gameState ix.toNat
      (fun e => { e with currentRate := 0 })).storage[ix.toNat]? =
      some ⟨e.kind, 0, e.cycleProgress⟩ :=
    modifyEntityAt_getElem?_self gameState ix.toNat _ he
  cases hL : (getEntityHandleAtPos
      (modifyEntityAt gameState ix.toNat (fun e => { e with currentRate := 0 }))
      ⟨pp.x - 1, pp.y⟩).entity with
  | none =>
    exact ⟨0, hgs0⟩
  | some le =>
    dsimp only
    by_cases hc : le.kind = cond
    · rw [if_pos hc]
      refine ⟨le.currentRate * eff, ?_⟩
      rw [modifyEntityAt_getElem?_self _ ix.toNat _ hgs0]
    · rw [if_neg hc]
      exact ⟨0, hgs0⟩

/-- When the cell to the left is in bounds, occupied, and of the matching
kind, `startWorkingConditionally` stores that neighbour's rate scaled by
the efficiency. -/
theorem startWorkingConditionally_left (gameState : GameState) (p : V2) (e le : Entity)
    (cond : EntityKind) (eff : ℚ)
    (hp : posIsInBounds p gameState.worldDim)
    (he : gameState.storage[gridIndex gameState.worldDim.x p]? = some e)
    (hpl : posIsInBounds ⟨p.x - 1, p.y⟩ gameState.worldDim)
    (hle : gameState.storage[gridIndex gameState.worldDim.x ⟨p.x - 1, p.y⟩]? = some le)
    (hlk : le.kind = cond) :
    (startWorkingConditionally gameState
        ⟨some e, p.y * gameState.worldDim.x + p.x, p⟩ cond eff).storage[gridIndex
          gameState.worldDim.x p]? =
      some ⟨e.kind, le.currentRate * eff, e.cycleProgress⟩ := by
  have hne : gridIndex gameState.worldDim.x ⟨p.x - 1, p.y⟩ ≠
      (p.y * gameState.worldDim.x + p.x).toNat := by
    obtain ⟨hx1, hx2, hy1, hy2⟩ := hp
    obtain ⟨hl1, hl2, hl3, hl4⟩ := hpl
    have hlx : (0 : Int) ≤ p.x - 1 := hl1
    have hyw : 0 ≤ p.y * gameState.worldDim.x := mul_nonneg (by omega) (by omega)
    show (p.y * gameState.worldDim.x + (p.x - 1)).toNat ≠
      (p.y * gameState.worldDim.x + p.x).toNat
    omega
  unfold startWorkingConditionally
  dsimp only
  have hgs0 : (modifyEntityAt gameState (p.y * gameState.worldDim.x + p.x).toNat
      (fun e => { e with currentRate := 0 })).storage[(p.y * gameState.worldDim.x +
        p.x).toNat]? = some ⟨e.kind, 0, e.cycleProgress⟩ :=
    modifyEntityAt_getElem?_self gameState _ _ he
  have hplm : posIsInBounds ⟨p.x - 1, p.y⟩
      (modifyEntityAt gameState (p.y * gameState.worldDim.x + p.x).toNat
        (fun e => { e with currentRate := 0 })).worldDim := hpl
  rw [getEntityHandleAtPos_of_inBounds hplm]
  dsimp only
  rw [show (modifyEntityAt gameState (p.y * gameState.worldDim.x + p.x).toNat
      (fun e => { e with currentRate := 0 })).worldDim.x = gameState.worldDim.x from rfl]
  rw [modifyEntityAt_getElem?_ne gameState _ _ _ hne, hle]
  dsimp only
  rw [if_pos hlk]
  exact @modifyEntityAt_getElem?_self _ _ _ ⟨e.kind, 0, e.cycleProgress⟩ hgs0

theorem kindAtPos_tickStep (gameState : GameState) (q p : V2) (deltaTime : ℚ) :
    kindAtPos (tickStep deltaTime gameState q) p = kindAtPos gameState p :=
  getEntityHandleAtPos_kind (tickStep_worldDim gameState q deltaTime)
    (fun j => kindAt_tickStep gameState q deltaTime j) p

theorem tickStep_of_no_entity {gameState : GameState} {p : V2} (deltaTime : ℚ)
    (h : (getEntityHandleAtPos gameState p).entity = none) :
    tickStep deltaTime gameState p = gameState :=
  tickBody_of_none h deltaTime

/-- One visit of an occupied cell: the stored entity keeps its kind, its
rate becomes some value `r` decided by the switch, its cycle progress is
wrapped and then advanced by `deltaTime / referenceCycleDuration * r`;
the ledger moves only for a `Producer`, and exactly by the new rate
scaled the same way; the diagnostic sink grows only for an unhandled
kind. -/
theorem tickStep_visit (gameState : GameState) (p : V2) (deltaTime : ℚ) (e : Entity)
    (hp : posIsInBounds p gameState.worldDim)
    (he : gameState.storage[gridIndex gameState.worldDim.x p]? = some e) :
    ∃ r : ℚ,
      (tickStep deltaTime gameState p).storage[gridIndex gameState.worldDim.x p]? =
        some ⟨e.kind, r, wrapProgress e.cycleProgress +
          deltaTime / gameState.referenceCycleDuration * r⟩ ∧
      (tickStep deltaTime gameState p).currentNumber =
        gameState.currentNumber +
          (if e.kind = EntityKind.Producer
           then r * deltaTime / gameState.referenceCycleDuration else 0) ∧
      (tickStep deltaTime gameState p).consoleErrors =
        gameState.consoleErrors ++ switchDiagnostic e.kind := by
  unfold tickStep
  unfold gridIndex
  rw [getEntityHandleAtPos_of_inBounds hp, he]
  unfold tickBody
  dsimp only
  cases hk : e.kind with
  | Producer =>
    dsimp only
    obtain ⟨r, hr⟩ := startWorkingConditionally_shape gameState
      (p.y * gameState.worldDim.x + p.x) p e .Motor (8 / 10) he
    rw [hk] at hr
    have hrate : rateAt (startWorkingConditionally gameState
        ⟨some e, p.y * gameState.worldDim.x + p.x, p⟩ .Motor (8 / 10))
        (p.y * gameState.worldDim.x + p.x).toNat = r := by
      unfold rateAt
      rw [hr]
    have hL : (addToLedger (startWorkingConditionally gameState
        ⟨some e, p.y * gameState.worldDim.x + p.x, p⟩ .Motor (8 / 10))
        (rateAt (startWorkingConditionally gameState
            ⟨some e, p.y * gameState.worldDim.x + p.x, p⟩ .Motor (8 / 10))
          (p.y * gameState.worldDim.x + p.x).toNat * deltaTime /
          (startWorkingConditionally gameState
            ⟨some e, p.y * gameState.worldDim.x + p.x, p⟩ .Motor
            (8 / 10)).referenceCycleDuration)).storage[(p.y * gameState.worldDim.x +
              p.x).toNat]? = some ⟨EntityKind.Producer, r, e.cycleProgress⟩ := hr
    refine ⟨r, ?_, ?_, ?_⟩
    · rw [@modifyEntityAt_getElem?_self _ _ _ ⟨EntityKind.Producer, r, e.cycleProgress⟩ hL]
      simp
    · rw [modifyEntityAt_currentNumber, addToLedger_currentNumber,
          hrate, startWorkingConditionally_currentNumber,
          startWorkingConditionally_referenceCycleDuration, if_pos rfl]
    · rw [modifyEntityAt_consoleErrors, addToLedger_consoleErrors,
          startWorkingConditionally_consoleErrors]
      simp [switchDiagnostic]
  | Motor =>
    dsimp only
    obtain ⟨r, hr⟩ := startWorkingConditionally_shape gameState
      (p.y * gameState.worldDim.x + p.x) p e .Generator (5 / 10) he
    rw [hk] at hr
    refine ⟨r, ?_, ?_, ?_⟩
    · rw [@modifyEntityAt_getElem?_self _ _ _ ⟨EntityKind.Motor, r, e.cycleProgress⟩ hr]
      simp
    · rw [modifyEntityAt_currentNumber, startWorkingConditionally_currentNumber,
          if_neg (by simp)]
      rw [add_zero]
    · rw [modifyEntityAt_consoleErrors, startWorkingConditionally_consoleErrors]
      simp [switchDiagnostic]
  | Generator =>
    dsimp only
    refine ⟨generatorRate gameState p, ?_, ?_, ?_⟩
    · have hg : (modifyEntityAt gameState (p.y * gameState.worldDim.x + p.x).toNat
          (fun e' => { e' with currentRate := generatorRate gameState p
            })).storage[(p.y * gameState.worldDim.x + p.x).toNat]? =
          some ⟨e.kind, generatorRate gameState p, e.cycleProgress⟩ :=
        modifyEntityAt_getElem?_self gameState _ _ he
      rw [hk] at hg
      rw [@modifyEntityAt_getElem?_self _ _ _
        ⟨EntityKind.Generator, generatorRate gameState p, e.cycleProgress⟩ hg]
      simp
    · rw [modifyEntityAt_currentNumber, modifyEntityAt_currentNumber,
          if_neg (by simp), add_zero]
    · rw [modifyEntityAt_consoleErrors, modifyEntityAt_consoleErrors]
      simp [switchDiagnostic]
  | None =>
    dsimp only
    refine ⟨e.currentRate, ?_, ?_, ?_⟩
    · have he' : (logError gameState EntityKind.None).storage[(p.y *
          gameState.worldDim.x + p.x).toNat]? = some e := he
      rw [@modifyEntityAt_getElem?_self _ _ _ e he']
      rw [hk]
      simp only [logError_referenceCycleDuration]
    · rw [modifyEntityAt_currentNumber, logError_currentNumber]
      rw [if_neg (by simp), add_zero]
    · rw [modifyEntityAt_consoleErrors, logError_consoleErrors]
      simp [switchDiagnostic]
  | Corrupt code =>
    dsimp only
    refine ⟨e.currentRate, ?_, ?_, ?_⟩
    · have he' : (logError gameState (EntityKind.Corrupt code)).storage[(p.y *
          gameState.worldDim.x + p.x).toNat]? = some e := he
      rw [@modifyEntityAt_getElem?_self _ _ _ e he']
      rw [hk]
      simp only [logError_referenceCycleDuration]
    · rw [modifyEntityAt_currentNumber, logError_currentNumber]
      rw [if_neg (by simp), add_zero]
    · rw [modifyEntityAt_consoleErrors, logError_consoleErrors]
      simp [switchDiagnostic]

/-- An entity is only ever resolved at an in-bounds position. -/
theorem inBounds_of_entity {gameState : GameState} {p : V2} {e : Entity}
    (hent : (getEntityHandleAtPos gameState p).entity = some e) :
    posIsInBounds p gameState.worldDim := by
  by_contra hp
  rw [getEntityHandleAtPos_of_out hp] at hent
  cases hent

theorem storage_of_entity {gameState : GameState} {p : V2} {e : Entity}
    (hent : (getEntityHandleAtPos gameState p).entity = some e) :
    gameState.storage[gridIndex gameState.worldDim.x p]? = some e := by
  have hp := inBounds_of_entity hent
  rw [getEntityHandleAtPos_of_inBounds hp] at hent
  exact hent

/-- One visit's effect on the ledger, for any position: only a resolved
`Producer` moves it, and by its own post-switch (final) rate. -/
theorem tickStep_currentNumber (gameState : GameState) (p : V2) (deltaTime : ℚ) :
    (tickStep deltaTime gameState p).currentNumber =
      gameState.currentNumber +
        (if kindAtPos gameState p = some EntityKind.Producer
         then rateAt (tickStep deltaTime gameState p) (gridIndex gameState.worldDim.x p) *
           deltaTime / gameState.referenceCycleDuration
         else 0) := by
  cases hent : (getEntityHandleAtPos gameState p).entity with
  | none =>
    rw [tickStep_of_no_entity deltaTime hent]
    rw [if_neg (by rw [kindAtPos, hent]; simp), add_zero]
  | some e =>
    have hp := inBounds_of_entity hent
    have he := storage_of_entity hent
    obtain ⟨r, hstor, hcn, -⟩ := tickStep_visit gameState p deltaTime e hp he
    have hkpos : kindAtPos gameState p = some e.kind := by
      rw [kindAtPos, hent]
      rfl
    have hrate : rateAt (tickStep deltaTime gameState p)
        (gridIndex gameState.worldDim.x p) = r := by
      unfold rateAt
      rw [hstor]
    by_cases hkind : e.kind = EntityKind.Producer
    · rw [if_pos (by rw [hkpos, hkind]), hrate, hcn, if_pos hkind]
    · rw [if_neg (by rw [hkpos]; simpa using hkind), hcn, if_neg hkind]

/-- One visit's effect on the diagnostic sink. -/
theorem tickStep_consoleErrors (gameState : GameState) (p : V2) (deltaTime : ℚ) :
    (tickStep deltaTime gameState p).consoleErrors =
      gameState.consoleErrors ++
        (match kindAtPos gameState p with
         | some k => switchDiagnostic k
         | none => []) := by
  cases hent : (getEntityHandleAtPos gameState p).entity with
  | none =>
    rw [tickStep_of_no_entity deltaTime hent]
    rw [kindAtPos, hent]
    simp
  | some e =>
    have hp := inBounds_of_entity hent
    have he := storage_of_entity hent
    obtain ⟨r, -, -, hce⟩ := tickStep_visit gameState p deltaTime e hp he
    rw [hce]
    rw [kindAtPos, hent]
    rfl

/-- The cell stored at a visited position after the whole update pass:
kind kept, rate replaced by some value `r`, cycle progress wrapped and
then advanced by the scaled `r`. -/
theorem tickFold_cell (gameState : GameState) (deltaTime : ℚ) (l1 l2 : List V2)
    (p : V2) (e : Entity)
    (hp : posIsInBounds p gameState.worldDim)
    (he : gameState.storage[gridIndex gameState.worldDim.x p]? = some e)
    (hl1 : ∀ q ∈ l1, gridIndex gameState.worldDim.x p ≠ gridIndex gameState.worldDim.x q)
    (hl2 : ∀ q ∈ l2, gridIndex gameState.worldDim.x p ≠ gridIndex gameState.worldDim.x q) :
    ∃ r : ℚ,
      (tickFold gameState (l1 ++ p :: l2) deltaTime).storage[gridIndex
          gameState.worldDim.x p]? =
        some ⟨e.kind, r, wrapProgress e.cycleProgress +
          deltaTime / gameState.referenceCycleDuration * r⟩ := by
  rw [tickFold_getElem?_visit gameState l1 l2 p deltaTime hl2]
  have hstable : (tickFold gameState l1 deltaTime).storage[gridIndex
      gameState.worldDim.x p]? = some e := by
    rw [tickFold_getElem?_stable deltaTime l1 gameState _ hl1]
    exact he
  have hp' : posIsInBounds p (tickFold gameState l1 deltaTime).worldDim := by
    rw [tickFold_worldDim]
    exact hp
  have hdim : (tickFold gameState l1 deltaTime).worldDim.x = gameState.worldDim.x := by
    rw [tickFold_worldDim]
  have he' : (tickFold gameState l1 deltaTime).storage[gridIndex
      (tickFold gameState l1 deltaTime).worldDim.x p]? = some e := by
    rw [hdim]
    exact hstable
  obtain ⟨r, hstor, -, -⟩ := tickStep_visit (tickFold gameState l1 deltaTime) p deltaTime
    e hp' he'
  refine ⟨r, ?_⟩
  rw [hdim] at hstor
  rw [hstor, tickFold_referenceCycleDuration]

/-- The ledger over a whole pass: it grows exactly by one contribution
per resolved `Producer` in the visit list, each equal to that producer's
final (post-pass) rate scaled by `deltaTime / referenceCycleDuration`. -/
theorem tickFold_currentNumber (deltaTime : ℚ) :
    ∀ (ps : List V2) (gameState : GameState),
      ps.Pairwise (fun a b =>
        gridIndex gameState.worldDim.x a ≠ gridIndex gameState.worldDim.x b) →
      (tickFold gameState ps deltaTime).currentNumber =
        gameState.currentNumber +
          (ps.map (fun p =>
            if kindAtPos gameState p = some EntityKind.Producer
            then rateAt (tickFold gameState ps deltaTime)
              (gridIndex gameState.worldDim.x p) * deltaTime /
              gameState.referenceCycleDuration
            else 0)).sum := by
  intro ps
  induction ps with
  | nil =>
    intro gameState hpw
    simp [tickFold]
  | cons p rest ih =>
    intro gameState hpw
    rw [List.pairwise_cons] at hpw
    obtain ⟨hhead, hrest⟩ := hpw
    have hwx : (tickStep deltaTime gameState p).worldDim.x = gameState.worldDim.x := by
      rw [tickStep_worldDim]
    have hfold : tickFold gameState (p :: rest) deltaTime =
        tickFold (tickStep deltaTime gameState p) rest deltaTime := rfl
    have hrest' : rest.Pairwise (fun a b =>
        gridIndex (tickStep deltaTime gameState p).worldDim.x a ≠
          gridIndex (tickStep deltaTime gameState p).worldDim.x b) := by
      rw [hwx]
      exact hrest
    have hIH := ih (tickStep deltaTime gameState p) hrest'
    rw [hfold, hIH]
    have hstepcn := tickStep_currentNumber gameState p deltaTime
    have hstable : rateAt (tickFold (tickStep deltaTime gameState p) rest deltaTime)
        (gridIndex gameState.worldDim.x p) =
        rateAt (tickStep deltaTime gameState p) (gridIndex gameState.worldDim.x p) := by
      unfold rateAt
      rw [tickFold_getElem?_stable deltaTime rest (tickStep deltaTime gameState p) _ ?hq]
      case hq =>
        intro q hq
        rw [hwx]
        exact hhead q hq
    rw [hstepcn]
    rw [List.map_cons, List.sum_cons]
    have hmapeq : rest.map (fun q =>
        if kindAtPos (tickStep deltaTime gameState p) q = some EntityKind.Producer
        then rateAt (tickFold (tickStep deltaTime gameState p) rest deltaTime)
          (gridIndex (tickStep deltaTime gameState p).worldDim.x q) * deltaTime /
          (tickStep deltaTime gameState p).referenceCycleDuration
        else 0) = rest.map (fun q =>
        if kindAtPos gameState q = some EntityKind.Producer
        then rateAt (tickFold gameState (p :: rest) deltaTime)
          (gridIndex gameState.worldDim.x q) * deltaTime /
          gameState.referenceCycleDuration
        else 0) := by
      refine List.map_congr_left ?_
      intro q hq
      simp only [kindAtPos_tickStep, tickStep_worldDim, tickStep_referenceCycleDuration]
      rw [hfold]
    rw [hmapeq]
    have hheadeq : rateAt (tickFold gameState (p :: rest) deltaTime)
        (gridIndex gameState.worldDim.x p) =
        rateAt (tickStep deltaTime gameState p) (gridIndex gameState.worldDim.x p) := by
      rw [hfold]
      exact hstable
    rw [← hfold, hheadeq, add_assoc]

/-- The diagnostics over a whole pass: the visits append, in order, the
`default`-branch message of every resolved entity of unhandled kind. -/
theorem tickFold_consoleErrors (deltaTime : ℚ) :
    ∀ (ps : List V2) (gameState : GameState),
      (tickFold gameState ps deltaTime).consoleErrors =
        gameState.consoleErrors ++ ps.flatMap (fun p =>
          match kindAtPos gameState p with
          | some k => switchDiagnostic k
          | none => []) := by
  intro ps
  induction ps with
  | nil =>
    intro gameState
    simp [tickFold]
  | cons p rest ih =>
    intro gameState
    have hfold : tickFold gameState (p :: rest) deltaTime =
        tickFold (tickStep deltaTime gameState p) rest deltaTime := rfl
    rw [hfold, ih (tickStep deltaTime gameState p)]
    rw [tickStep_consoleErrors]
    have hmapeq : rest.flatMap (fun q =>
        match kindAtPos (tickStep deltaTime gameState p) q with
        | some k => switchDiagnostic k
        | none => []) = rest.flatMap (fun q =>
        match kindAtPos gameState q with
        | some k => switchDiagnostic k
        | none => []) := by
      refine List.flatMap_congr ?_
      intro q hq
      rw [kindAtPos_tickStep]
    rw [hmapeq, List.flatMap_cons, List.append_assoc]

/-- The generator activation value only reads the cursor, margins and
cell size, all of which the pass leaves unchanged. -/
theorem generatorRate_tickFold (gameState : GameState) (l : List V2) (deltaTime : ℚ)
    (p : V2) :
    generatorRate (tickFold gameState l deltaTime) p = generatorRate gameState p := by
  unfold generatorRate cursorIsOver
  simp only [tickFold_cursor, tickFold_worldMargins, tickFold_cellDimPx]

/-- A visited `Generator` cell stores exactly the activation value as its
new rate. -/
theorem tickStep_at_generator (gameState : GameState) (p : V2) (deltaTime : ℚ)
    (e : Entity) (hp : posIsInBounds p gameState.worldDim)
    (he : gameState.storage[gridIndex gameState.worldDim.x p]? = some e)
    (hk : e.kind = EntityKind.Generator) :
    (tickStep deltaTime gameState p).storage[gridIndex gameState.worldDim.x p]? =
      some ⟨EntityKind.Generator, generatorRate gameState p,
        wrapProgress e.cycleProgress +
          deltaTime / gameState.referenceCycleDuration * generatorRate gameState p⟩ := by
  unfold tickStep
  unfold gridIndex
  rw [getEntityHandleAtPos_of_inBounds hp, he]
  unfold tickBody
  dsimp only
  rw [hk]
  dsimp only
  have hg : (modifyEntityAt gameState (p.y * gameState.worldDim.x + p.x).toNat
      (fun e' => { e' with currentRate := generatorRate gameState p
        })).storage[(p.y * gameState.worldDim.x + p.x).toNat]? =
      some ⟨e.kind, generatorRate gameState p, e.cycleProgress⟩ :=
    modifyEntityAt_getElem?_self gameState _ _ he
  rw [hk] at hg
  rw [@modifyEntityAt_getElem?_self _ _ _
    ⟨EntityKind.Generator, generatorRate gameState p, e.cycleProgress⟩ hg]
  simp

/-- A visited `Motor` cell whose left neighbour is an in-bounds
`Generator` stores that neighbour's current rate halved. -/
theorem tickStep_at_motor (gameState : GameState) (p : V2) (deltaTime : ℚ)
    (e le : Entity) (hp : posIsInBounds p gameState.worldDim)
    (he : gameState.storage[gridIndex gameState.worldDim.x p]? = some e)
    (hk : e.kind = EntityKind.Motor)
    (hpl : posIsInBounds ⟨p.x - 1, p.y⟩ gameState.worldDim)
    (hle : gameState.storage[gridIndex gameState.worldDim.x ⟨p.x - 1, p.y⟩]? = some le)
    (hlk : le.kind = EntityKind.Generator) :
    (tickStep deltaTime gameState p).storage[gridIndex gameState.worldDim.x p]? =
      some ⟨EntityKind.Motor, le.currentRate * (5 / 10),
        wrapProgress e.cycleProgress +
          deltaTime / gameState.referenceCycleDuration *
            (le.currentRate * (5 / 10))⟩ := by
  have hsw := startWorkingConditionally_left gameState p e le .Generator (5 / 10)
    hp he hpl hle hlk
  unfold gridIndex at hsw
  rw [hk] at hsw
  unfold tickStep
  unfold gridIndex
  rw [getEntityHandleAtPos_of_inBounds hp, he]
  unfold tickBody
  dsimp only
  rw [hk]
  dsimp only
  rw [@modifyEntityAt_getElem?_self _ _ _
    ⟨EntityKind.Motor, le.currentRate * (5 / 10), e.cycleProgress⟩ hsw]
  simp

/-- A visited `Producer` cell whose left neighbour is an in-bounds
`Motor` stores that neighbour's current rate scaled by `0.8`. -/
theorem tickStep_at_producer (gameState : GameState) (p : V2) (deltaTime : ℚ)
    (e le : Entity) (hp : posIsInBounds p gameState.worldDim)
    (he : gameState.storage[gridIndex gameState.worldDim.x p]? = some e)
    (hk : e.kind = EntityKind.Producer)
    (hpl : posIsInBounds ⟨p.x - 1, p.y⟩ gameState.worldDim)
    (hle : gameState.storage[gridIndex gameState.worldDim.x ⟨p.x - 1, p.y⟩]? = some le)
    (hlk : le.kind = EntityKind.Motor) :
    (tickStep deltaTime gameState p).storage[gridIndex gameState.worldDim.x p]? =
      some ⟨EntityKind.Producer, le.currentRate * (8 / 10),
        wrapProgress e.cycleProgress +
          deltaTime / gameState.referenceCycleDuration *
            (le.currentRate * (8 / 10))⟩ := by
  have hsw := startWorkingConditionally_left gameState p e le .Motor (8 / 10)
    hp he hpl hle hlk
  unfold gridIndex at hsw
  rw [hk] at hsw
  have hL : (addToLedger (startWorkingConditionally gameState
      ⟨some e, p.y * gameState.worldDim.x + p.x, p⟩ .Motor (8 / 10))
      (rateAt (startWorkingConditionally gameState
          ⟨some e, p.y * gameState.worldDim.x + p.x, p⟩ .Motor (8 / 10))
        (p.y * gameState.worldDim.x + p.x).toNat * deltaTime /
        (startWorkingConditionally gameState
          ⟨some e, p.y * gameState.worldDim.x + p.x, p⟩ .Motor
          (8 / 10)).referenceCycleDuration)).storage[(p.y * gameState.worldDim.x +
            p.x).toNat]? =
      some ⟨EntityKind.Producer, le.currentRate * (8 / 10), e.cycleProgress⟩ := hsw
  unfold tickStep
  unfold gridIndex
  rw [getEntityHandleAtPos_of_inBounds hp, he]
  unfold tickBody
  dsimp only
  rw [hk]
  dsimp only
  rw [@modifyEntityAt_getElem?_self _ _ _
    ⟨EntityKind.Producer, le.currentRate * (8 / 10), e.cycleProgress⟩ hL]
  simp

/-- A cell no remaining visit writes already holds its final value. -/
theorem tickFold_prefix_eq_final (gameState : GameState) (deltaTime : ℚ)
    (l1 rest : List V2) (j : Nat)
    (hrest : ∀ q ∈ rest, j ≠ gridIndex gameState.worldDim.x q) :
    (tickFold gameState l1 deltaTime).storage[j]? =
      (tickFold gameState (l1 ++ rest) deltaTime).storage[j]? := by
  rw [tickFold_append]
  rw [tickFold_getElem?_stable deltaTime rest _ j ?hq]
  case hq =>
    intro q hq
    rw [tickFold_worldDim]
    exact hrest q hq

theorem not_entityIsNoneAt {gameState : GameState} {p : V2} {e : Entity}
    (hp : posIsInBounds p gameState.worldDim)
    (he : gameState.storage[gridIndex gameState.worldDim.x p]? = some e)
    (hk : e.kind ≠ EntityKind.None) : ¬ entityIsNoneAt gameState p := by
  unfold entityIsNoneAt
  rw [getEntityHandleAtPos_of_inBounds hp]
  dsimp only
  rw [he]
  simpa using hk

theorem mem_right_of_pairwise {α : Type _} {R : α → α → Prop} {L l1 l2 : List α}
    {p q : α} (hpw : L.Pairwise R) (hdec : L = l1 ++ p :: l2) (hq : q ∈ L) (hR : R p q)
    (hasym : ∀ a b, R a b → R b a → False) : q ∈ l2 := by
  subst hdec
  rw [List.mem_append, List.mem_cons] at hq
  rcases hq with hq1 | hq2 | hq3
  · exfalso
    rw [List.pairwise_append] at hpw
    exact hasym p q hR (hpw.2.2 q hq1 p (List.mem_cons_self p l2))
  · exfalso
    rw [hq2] at hR
    exact hasym _ _ hR hR
  · exact hq3

/-- The same-tick rate cascade on a Generator/Motor/Producer row: after
one update pass, the generator cell holds the activation value, the
motor cell holds half of it, and the producer cell holds `0.8` of the
motor's value, i.e. `0.4` of the generator's — all computed within the
single pass. -/
theorem chain_cells (gameState : GameState) (deltaTime : ℚ) (x y : Int)
    (eg em ep : Entity)
    (hpg : posIsInBounds ⟨x, y⟩ gameState.worldDim)
    (hpm : posIsInBounds ⟨x + 1, y⟩ gameState.worldDim)
    (hpp : posIsInBounds ⟨x + 2, y⟩ gameState.worldDim)
    (heg : gameState.storage[gridIndex gameState.worldDim.x ⟨x, y⟩]? = some eg)
    (hkg : eg.kind = EntityKind.Generator)
    (hem : gameState.storage[gridIndex gameState.worldDim.x ⟨x + 1, y⟩]? = some em)
    (hkm : em.kind = EntityKind.Motor)
    (hep : gameState.storage[gridIndex gameState.worldDim.x ⟨x + 2, y⟩]? = some ep)
    (hkp : ep.kind = EntityKind.Producer) :
    (gameUpdateAndRender gameState deltaTime).storage[gridIndex
        gameState.worldDim.x ⟨x, y⟩]? =
      some ⟨EntityKind.Generator, generatorRate gameState ⟨x, y⟩,
        wrapProgress eg.cycleProgress + deltaTime / gameState.referenceCycleDuration *
          generatorRate gameState ⟨x, y⟩⟩ ∧
    (gameUpdateAndRender gameState deltaTime).storage[gridIndex
        gameState.worldDim.x ⟨x + 1, y⟩]? =
      some ⟨EntityKind.Motor, generatorRate gameState ⟨x, y⟩ * (5 / 10),
        wrapProgress em.cycleProgress + deltaTime / gameState.referenceCycleDuration *
          (generatorRate gameState ⟨x, y⟩ * (5 / 10))⟩ ∧
    (gameUpdateAndRender gameState deltaTime).storage[gridIndex
        gameState.worldDim.x ⟨x + 2, y⟩]? =
      some ⟨EntityKind.Producer, generatorRate gameState ⟨x, y⟩ * (5 / 10) * (8 / 10),
        wrapProgress ep.cycleProgress + deltaTime / gameState.referenceCycleDuration *
          (generatorRate gameState ⟨x, y⟩ * (5 / 10) * (8 / 10))⟩ := by
  obtain ⟨hgx1, hgx2, hgy1, hgy2⟩ := hpg
  have hw : 0 < gameState.worldDim.x := by omega
  have hh : 0 < gameState.worldDim.y := by omega
  have hpg' : posIsInBounds ⟨x, y⟩ gameState.worldDim := ⟨hgx1, hgx2, hgy1, hgy2⟩
  rw [gameUpdateAndRender_eq_fold_occupied gameState deltaTime hw hh]
  have hpw := pairwise_gridIndex_occupiedSeq gameState
  have hasym : ∀ a b : V2, gridIndex gameState.worldDim.x a < gridIndex gameState.worldDim.x b →
      gridIndex gameState.worldDim.x b < gridIndex gameState.worldDim.x a → False :=
    fun a b h1 h2 => absurd (h1.trans h2) (by omega)
  -- membership of the three cells
  have hmemg : (⟨x, y⟩ : V2) ∈ occupiedSeq gameState :=
    mem_occupiedSeq.mpr ⟨hpg', not_entityIsNoneAt hpg' heg (by rw [hkg]; intro h; cases h)⟩
  have hmemm : (⟨x + 1, y⟩ : V2) ∈ occupiedSeq gameState :=
    mem_occupiedSeq.mpr ⟨hpm, not_entityIsNoneAt hpm hem (by rw [hkm]; intro h; cases h)⟩
  have hmemp : (⟨x + 2, y⟩ : V2) ∈ occupiedSeq gameState :=
    mem_occupiedSeq.mpr ⟨hpp, not_entityIsNoneAt hpp hep (by rw [hkp]; intro h; cases h)⟩
  -- the raster order of the three cells
  have hltgm : gridIndex gameState.worldDim.x ⟨x, y⟩ <
      gridIndex gameState.worldDim.x ⟨x + 1, y⟩ := by
    refine gridIndex_lt ⟨hgx1, hgx2, hgy1⟩ ?_ ?_
    · obtain ⟨a, b, c, d⟩ := hpm
      exact ⟨a, b, c⟩
    · right
      exact ⟨rfl, by show x < x + 1; omega⟩
  have hltmp : gridIndex gameState.worldDim.x ⟨x + 1, y⟩ <
      gridIndex gameState.worldDim.x ⟨x + 2, y⟩ := by
    obtain ⟨a, b, c, d⟩ := hpm
    obtain ⟨a', b', c', d'⟩ := hpp
    refine gridIndex_lt ⟨a, b, c⟩ ⟨a', b', c'⟩ ?_
    right
    exact ⟨rfl, by show x + 1 < x + 2; omega⟩
  have hltgp : gridIndex gameState.worldDim.x ⟨x, y⟩ <
      gridIndex gameState.worldDim.x ⟨x + 2, y⟩ := hltgm.trans hltmp
  have hposeq1 : (⟨x + 1 - 1, y⟩ : V2) = ⟨x, y⟩ := by
    have hx : x + 1 - 1 = x := by ring
    rw [hx]
  have hposeq2 : (⟨x + 2 - 1, y⟩ : V2) = ⟨x + 1, y⟩ := by
    have hx : x + 2 - 1 = x + 1 := by ring
    rw [hx]
  -- split the traversal at the three cells
  obtain ⟨A, B, hdec1, hmB⟩ := pairwise_mem_split hpw hmemg hmemm hltgm hasym
  have hpB : (⟨x + 2, y⟩ : V2) ∈ B :=
    mem_right_of_pairwise hpw hdec1 hmemp hltgp hasym
  have hpw1 := hpw
  rw [hdec1, List.pairwise_append] at hpw1
  obtain ⟨hpwA, hpwgB, hcross1⟩ := hpw1
  rw [List.pairwise_cons] at hpwgB
  obtain ⟨hgBall, hpwB⟩ := hpwgB
  obtain ⟨B1, B2, hdecB, hpB2⟩ := pairwise_mem_split hpwB hmB hpB hltmp hasym
  have hdec2 : occupiedSeq gameState = (A ++ ⟨x, y⟩ :: B1) ++ ⟨x + 1, y⟩ :: B2 := by
    rw [hdec1, hdecB]
    simp [List.append_assoc, List.cons_append]
  obtain ⟨C1, C2, hdecC⟩ := List.append_of_mem hpB2
  have hdec3 : occupiedSeq gameState =
      ((A ++ ⟨x, y⟩ :: B1) ++ ⟨x + 1, y⟩ :: C1) ++ ⟨x + 2, y⟩ :: C2 := by
    rw [hdec2, hdecC]
    simp [List.append_assoc, List.cons_append]
  have hpw2 := hpw
  rw [hdec2, List.pairwise_append] at hpw2
  obtain ⟨hpwM1, hpwmB2, hcross2⟩ := hpw2
  rw [List.pairwise_cons] at hpwmB2
  obtain ⟨hmB2all, hpwB2⟩ := hpwmB2
  have hpw3 := hpw
  rw [hdec3, List.pairwise_append] at hpw3
  obtain ⟨hpwP1, hpwpC2, hcross3⟩ := hpw3
  rw [List.pairwise_cons] at hpwpC2
  obtain ⟨hpC2all, hpwC2⟩ := hpwpC2
  -- the generator cell after the pass
  have havegen : (tickFold gameState (occupiedSeq gameState) deltaTime).storage[gridIndex
      gameState.worldDim.x ⟨x, y⟩]? =
      some ⟨EntityKind.Generator, generatorRate gameState ⟨x, y⟩,
        wrapProgress eg.cycleProgress + deltaTime / gameState.referenceCycleDuration *
          generatorRate gameState ⟨x, y⟩⟩ := by
    rw [hdec1]
    rw [tickFold_getElem?_visit gameState A B ⟨x, y⟩ deltaTime
      (fun q hq => Nat.ne_of_lt (hgBall q hq))]
    have hstable : (tickFold gameState A deltaTime).storage[gridIndex
        gameState.worldDim.x ⟨x, y⟩]? = some eg := by
      rw [tickFold_getElem?_stable deltaTime A gameState _
        (fun q hq => (Nat.ne_of_lt (hcross1 q hq ⟨x, y⟩
          (List.mem_cons_self _ _))).symm)]
      exact heg
    have hdx : (tickFold gameState A deltaTime).worldDim.x = gameState.worldDim.x := by
      rw [tickFold_worldDim]
    have hp' : posIsInBounds ⟨x, y⟩ (tickFold gameState A deltaTime).worldDim := by
      rw [tickFold_worldDim]
      exact hpg'
    have he' : (tickFold gameState A deltaTime).storage[gridIndex
        (tickFold gameState A deltaTime).worldDim.x ⟨x, y⟩]? = some eg := by
      rw [hdx]
      exact hstable
    have hcell := tickStep_at_generator (tickFold gameState A deltaTime) ⟨x, y⟩
      deltaTime eg hp' he' hkg
    rw [hdx] at hcell
    rw [hcell, generatorRate_tickFold, tickFold_referenceCycleDuration]
  -- the motor cell after the pass
  have havemot : (tickFold gameState (occupiedSeq gameState) deltaTime).storage[gridIndex
      gameState.worldDim.x ⟨x + 1, y⟩]? =
      some ⟨EntityKind.Motor, generatorRate gameState ⟨x, y⟩ * (5 / 10),
        wrapProgress em.cycleProgress + deltaTime / gameState.referenceCycleDuration *
          (generatorRate gameState ⟨x, y⟩ * (5 / 10))⟩ := by
    have hgM1 : (⟨x, y⟩ : V2) ∈ A ++ ⟨x, y⟩ :: B1 :=
      List.mem_append.mpr (Or.inr (List.mem_cons_self _ _))
    have hleft : (tickFold gameState (A ++ ⟨x, y⟩ :: B1) deltaTime).storage[gridIndex
        gameState.worldDim.x ⟨x, y⟩]? =
        some ⟨EntityKind.Generator, generatorRate gameState ⟨x, y⟩,
          wrapProgress eg.cycleProgress + deltaTime / gameState.referenceCycleDuration *
            generatorRate gameState ⟨x, y⟩⟩ := by
      rw [tickFold_prefix_eq_final gameState deltaTime (A ++ ⟨x, y⟩ :: B1)
        (⟨x + 1, y⟩ :: B2) _ ?havoid]
      case havoid =>
        intro q hq
        rcases List.mem_cons.mp hq with hq1 | hq2
        · rw [hq1]
          exact Nat.ne_of_lt hltgm
        · exact Nat.ne_of_lt (hcross2 ⟨x, y⟩ hgM1 q (List.mem_cons_of_mem _ hq2))
      rw [← hdec2]
      exact havegen
    rw [hdec2]
    rw [tickFold_getElem?_visit gameState (A ++ ⟨x, y⟩ :: B1) B2 ⟨x + 1, y⟩ deltaTime
      (fun q hq => Nat.ne_of_lt (hmB2all q hq))]
    have hstable : (tickFold gameState (A ++ ⟨x, y⟩ :: B1) deltaTime).storage[gridIndex
        gameState.worldDim.x ⟨x + 1, y⟩]? = some em := by
      rw [tickFold_getElem?_stable deltaTime _ gameState _
        (fun q hq => (Nat.ne_of_lt (hcross2 q hq ⟨x + 1, y⟩
          (List.mem_cons_self _ _))).symm)]
      exact hem
    have hdx : (tickFold gameState (A ++ ⟨x, y⟩ :: B1) deltaTime).worldDim.x =
        gameState.worldDim.x := by
      rw [tickFold_worldDim]
    have hp' : posIsInBounds ⟨x + 1, y⟩
        (tickFold gameState (A ++ ⟨x, y⟩ :: B1) deltaTime).worldDim := by
      rw [tickFold_worldDim]
      exact hpm
    have he' : (tickFold gameState (A ++ ⟨x, y⟩ :: B1) deltaTime).storage[gridIndex
        (tickFold gameState (A ++ ⟨x, y⟩ :: B1) deltaTime).worldDim.x ⟨x + 1, y⟩]? =
        some em := by
      rw [hdx]
      exact hstable
    have hpl' : posIsInBounds ⟨x + 1 - 1, y⟩
        (tickFold gameState (A ++ ⟨x, y⟩ :: B1) deltaTime).worldDim := by
      rw [tickFold_worldDim, hposeq1]
      exact hpg'
    have hle' : (tickFold gameState (A ++ ⟨x, y⟩ :: B1) deltaTime).storage[gridIndex
        (tickFold gameState (A ++ ⟨x, y⟩ :: B1) deltaTime).worldDim.x
          ⟨x + 1 - 1, y⟩]? =
        some ⟨EntityKind.Generator, generatorRate gameState ⟨x, y⟩,
          wrapProgress eg.cycleProgress + deltaTime / gameState.referenceCycleDuration *
            generatorRate gameState ⟨x, y⟩⟩ := by
      rw [hdx, hposeq1]
      exact hleft
    have hcell := tickStep_at_motor (tickFold gameState (A ++ ⟨x, y⟩ :: B1) deltaTime)
      ⟨x + 1, y⟩ deltaTime em
      ⟨EntityKind.Generator, generatorRate gameState ⟨x, y⟩,
        wrapProgress eg.cycleProgress + deltaTime / gameState.referenceCycleDuration *
          generatorRate gameState ⟨x, y⟩⟩
      hp' he' hkm hpl' hle' rfl
    rw [hdx] at hcell
    rw [hcell, tickFold_referenceCycleDuration]
  -- the producer cell after the pass
  have havepro : (tickFold gameState (occupiedSeq gameState) deltaTime).storage[gridIndex
      gameState.worldDim.x ⟨x + 2, y⟩]? =
      some ⟨EntityKind.Producer, generatorRate gameState ⟨x, y⟩ * (5 / 10) * (8 / 10),
        wrapProgress ep.cycleProgress + deltaTime / gameState.referenceCycleDuration *
          (generatorRate gameState ⟨x, y⟩ * (5 / 10) * (8 / 10))⟩ := by
    have hmP1 : (⟨x + 1, y⟩ : V2) ∈ (A ++ ⟨x, y⟩ :: B1) ++ ⟨x + 1, y⟩ :: C1 :=
      List.mem_append.mpr (Or.inr (List.mem_cons_self _ _))
    have hleft : (tickFold gameState ((A ++ ⟨x, y⟩ :: B1) ++ ⟨x + 1, y⟩ :: C1)
        deltaTime).storage[gridIndex gameState.worldDim.x ⟨x + 1, y⟩]? =
        some ⟨EntityKind.Motor, generatorRate gameState ⟨x, y⟩ * (5 / 10),
          wrapProgress em.cycleProgress + deltaTime / gameState.referenceCycleDuration *
            (generatorRate gameState ⟨x, y⟩ * (5 / 10))⟩ := by
      rw [tickFold_prefix_eq_final gameState deltaTime _ (⟨x + 2, y⟩ :: C2) _ ?havoid]
      case havoid =>
        intro q hq
        rcases List.mem_cons.mp hq with hq1 | hq2
        · rw [hq1]
          exact Nat.ne_of_lt hltmp
        · exact Nat.ne_of_lt (hcross3 ⟨x + 1, y⟩ hmP1 q (List.mem_cons_of_mem _ hq2))
      rw [← hdec3]
      exact havemot
    rw [hdec3]
    rw [tickFold_getElem?_visit gameState ((A ++ ⟨x, y⟩ :: B1) ++ ⟨x + 1, y⟩ :: C1) C2
      ⟨x + 2, y⟩ deltaTime (fun q hq => Nat.ne_of_lt (hpC2all q hq))]
    have hstable : (tickFold gameState ((A ++ ⟨x, y⟩ :: B1) ++ ⟨x + 1, y⟩ :: C1)
        deltaTime).storage[gridIndex gameState.worldDim.x ⟨x + 2, y⟩]? = some ep := by
      rw [tickFold_getElem?_stable deltaTime _ gameState _
        (fun q hq => (Nat.ne_of_lt (hcross3 q hq ⟨x + 2, y⟩
          (List.mem_cons_self _ _))).symm)]
      exact hep
    have hdx : (tickFold gameState ((A ++ ⟨x, y⟩ :: B1) ++ ⟨x + 1, y⟩ :: C1)
        deltaTime).worldDim.x = gameState.worldDim.x := by
      rw [tickFold_worldDim]
    have hp' : posIsInBounds ⟨x + 2, y⟩
        (tickFold gameState ((A ++ ⟨x, y⟩ :: B1) ++ ⟨x + 1, y⟩ :: C1)
          deltaTime).worldDim := by
      rw [tickFold_worldDim]
      exact hpp
    have he' : (tickFold gameState ((A ++ ⟨x, y⟩ :: B1) ++ ⟨x + 1, y⟩ :: C1)
        deltaTime).storage[gridIndex (tickFold gameState
          ((A ++ ⟨x, y⟩ :: B1) ++ ⟨x + 1, y⟩ :: C1) deltaTime).worldDim.x
          ⟨x + 2, y⟩]? = some ep := by
      rw [hdx]
      exact hstable
    have hpl' : posIsInBounds ⟨x + 2 - 1, y⟩
        (tickFold gameState ((A ++ ⟨x, y⟩ :: B1) ++ ⟨x + 1, y⟩ :: C1)
          deltaTime).worldDim := by
      rw [tickFold_worldDim, hposeq2]
      exact hpm
    have hle' : (tickFold gameState ((A ++ ⟨x, y⟩ :: B1) ++ ⟨x + 1, y⟩ :: C1)
        deltaTime).storage[gridIndex (tickFold gameState
          ((A ++ ⟨x, y⟩ :: B1) ++ ⟨x + 1, y⟩ :: C1) deltaTime).worldDim.x
          ⟨x + 2 - 1, y⟩]? =
        some ⟨EntityKind.Motor, generatorRate gameState ⟨x, y⟩ * (5 / 10),
          wrapProgress em.cycleProgress + deltaTime / gameState.referenceCycleDuration *
            (generatorRate gameState ⟨x, y⟩ * (5 / 10))⟩ := by
      rw [hdx, hposeq2]
      exact hleft
    have hcell := tickStep_at_producer (tickFold gameState
        ((A ++ ⟨x, y⟩ :: B1) ++ ⟨x + 1, y⟩ :: C1) deltaTime)
      ⟨x + 2, y⟩ deltaTime ep
      ⟨EntityKind.Motor, generatorRate gameState ⟨x, y⟩ * (5 / 10),
        wrapProgress em.cycleProgress + deltaTime / gameState.referenceCycleDuration *
          (generatorRate gameState ⟨x, y⟩ * (5 / 10))⟩
      hp' he' hkp hpl' hle' rfl
    rw [hdx] at hcell
    rw [hcell, tickFold_referenceCycleDuration]
  exact ⟨havegen, havemot, havepro⟩

/-! ### Remaining helper lemmas -/

/-- Any occupied position splits the traversal, with every other visit
on a distinct storage index. -/
theorem occupiedSeq_split {gameState : GameState} {p : V2}
    (hmem : p ∈ occupiedSeq gameState) :
    ∃ l1 l2, occupiedSeq gameState = l1 ++ p :: l2 ∧
      (∀ q ∈ l1, gridIndex gameState.worldDim.x p ≠ gridIndex gameState.worldDim.x q) ∧
      (∀ q ∈ l2, gridIndex gameState.worldDim.x p ≠ gridIndex gameState.worldDim.x q) := by
  obtain ⟨l1, l2, hdec⟩ := List.append_of_mem hmem
  have hpw := pairwise_gridIndex_occupiedSeq gameState
  rw [hdec, List.pairwise_append] at hpw
  obtain ⟨h1, h2, hcross⟩ := hpw
  rw [List.pairwise_cons] at h2
  refine ⟨l1, l2, hdec, ?_, ?_⟩
  · intro q hq
    exact (Nat.ne_of_lt (hcross q hq p (List.mem_cons_self _ _))).symm
  · intro q hq
    exact Nat.ne_of_lt (h2.1 q hq)

/-- A visited cell of unhandled kind keeps its rate: only the cycle
progress is wrapped and advanced by that prior rate. -/
theorem tickStep_at_corrupt (gameState : GameState) (p : V2) (deltaTime : ℚ)
    (e : Entity) (code : Int) (hp : posIsInBounds p gameState.worldDim)
    (he : gameState.storage[gridIndex gameState.worldDim.x p]? = some e)
    (hk : e.kind = EntityKind.Corrupt code) :
    (tickStep deltaTime gameState p).storage[gridIndex gameState.worldDim.x p]? =
      some ⟨e.kind, e.currentRate, wrapProgress e.cycleProgress +
        deltaTime / gameState.referenceCycleDuration * e.currentRate⟩ := by
  unfold tickStep
  unfold gridIndex
  rw [getEntityHandleAtPos_of_inBounds hp, he]
  unfold tickBody
  dsimp only
  rw [hk]
  dsimp only
  have he2 : (logError gameState (EntityKind.Corrupt code)).storage[(p.y *
      gameState.worldDim.x + p.x).toNat]? = some e := he
  rw [@modifyEntityAt_getElem?_self _ _ _ e he2]
  rw [hk]
  simp only [logError_referenceCycleDuration]

/-- The kind resolved at an in-bounds stored cell. -/
theorem kindAtPos_of_storage {gameState : GameState} {p : V2} {e : Entity}
    (hp : posIsInBounds p gameState.worldDim)
    (he : gameState.storage[gridIndex gameState.worldDim.x p]? = some e) :
    kindAtPos gameState p = some e.kind := by
  unfold kindAtPos
  rw [getEntityHandleAtPos_of_inBounds hp]
  dsimp only
  rw [he]
  rfl

/-- No occupied visit indexes a cell that stores a `None`-kind entity. -/
theorem occupied_avoids_none {gameState : GameState} {j : Nat} {e : Entity}
    (he : gameState.storage[j]? = some e) (hk : e.kind = EntityKind.None) :
    ∀ q ∈ occupiedSeq gameState, j ≠ gridIndex gameState.worldDim.x q := by
  intro q hq hjq
  obtain ⟨hqb, hqn⟩ := mem_occupiedSeq.mp hq
  apply hqn
  unfold entityIsNoneAt
  rw [getEntityHandleAtPos_of_inBounds hqb]
  dsimp only
  rw [← hjq, he]
  simp [hk]

@[simp] theorem setKindAtPos_length (gameState : GameState) (pos : V2)
    (k : EntityKind) :
    (setKindAtPos gameState pos k).storage.length = gameState.storage.length := by
  unfold setKindAtPos
  dsimp only
  split
  · simp
  · rfl

@[simp] theorem setKindAtPos_worldDim (gameState : GameState) (pos : V2)
    (k : EntityKind) :
    (setKindAtPos gameState pos k).worldDim = gameState.worldDim := by
  unfold setKindAtPos
  dsimp only
  split
  · simp
  · rfl

@[simp] theorem setKindAtPos_referenceCycleDuration (gameState : GameState) (pos : V2)
    (k : EntityKind) :
    (setKindAtPos gameState pos k).referenceCycleDuration =
      gameState.referenceCycleDuration := by
  unfold setKindAtPos
  dsimp only
  split
  · simp
  · rfl

/-! ### The claims -/

/-- C1: Same-tick rate cascade: for a row containing a Generator at
`(x,y)`, a Motor at `(x+1,y)` and a Producer at `(x+2,y)`, a single tick
computes the motor rate as `0.5` times and the producer rate as
`0.5 * 0.8 = 0.4` times the generator rate freshly computed this tick
(`1` when the cursor is over the generator with the button held, else
`0`), with no stale carry-over from the previous rates. -/
theorem claim_C1 (gameState : GameState) (deltaTime : ℚ) (x y : Int)
    (eg em ep : Entity)
    (hpg : posIsInBounds ⟨x, y⟩ gameState.worldDim)
    (hpm : posIsInBounds ⟨x + 1, y⟩ gameState.worldDim)
    (hpp : posIsInBounds ⟨x + 2, y⟩ gameState.worldDim)
    (heg : gameState.storage[gridIndex gameState.worldDim.x ⟨x, y⟩]? = some eg)
    (hkg : eg.kind = EntityKind.Generator)
    (hem : gameState.storage[gridIndex gameState.worldDim.x ⟨x + 1, y⟩]? = some em)
    (hkm : em.kind = EntityKind.Motor)
    (hep : gameState.storage[gridIndex gameState.worldDim.x ⟨x + 2, y⟩]? = some ep)
    (hkp : ep.kind = EntityKind.Producer) :
    ∃ g : ℚ,
      g = generatorRate gameState ⟨x, y⟩ ∧
      (gameUpdateAndRender gameState deltaTime).storage[gridIndex
          gameState.worldDim.x ⟨x, y⟩]? =
        some ⟨EntityKind.Generator, g, wrapProgress eg.cycleProgress +
          deltaTime / gameState.referenceCycleDuration * g⟩ ∧
      (gameUpdateAndRender gameState deltaTime).storage[gridIndex
          gameState.worldDim.x ⟨x + 1, y⟩]? =
        some ⟨EntityKind.Motor, g * (5 / 10), wrapProgress em.cycleProgress +
          deltaTime / gameState.referenceCycleDuration * (g * (5 / 10))⟩ ∧
      (gameUpdateAndRender gameState deltaTime).storage[gridIndex
          gameState.worldDim.x ⟨x + 2, y⟩]? =
        some ⟨EntityKind.Producer, g * (5 / 10) * (8 / 10),
          wrapProgress ep.cycleProgress +
            deltaTime / gameState.referenceCycleDuration *
              (g * (5 / 10) * (8 / 10))⟩ ∧
      (cursorIsOver gameState ⟨x, y⟩ ∧ gameState.cursor.leftButtonDown → g = 1) ∧
      (¬ (cursorIsOver gameState ⟨x, y⟩ ∧ gameState.cursor.leftButtonDown) → g = 0) := by
  obtain ⟨h1, h2, h3⟩ := chain_cells gameState deltaTime x y eg em ep
    hpg hpm hpp heg hkg hem hkm hep hkp
  refine ⟨generatorRate gameState ⟨x, y⟩, rfl, h1, h2, h3, ?_, ?_⟩
  · intro hact
    unfold generatorRate
    rw [if_pos hact]
  · intro hact
    unfold generatorRate
    rw [if_neg hact]

theorem claim_C1_witness :
    ∃ g : ℚ,
      g = generatorRate tinyState ⟨0, 0⟩ ∧
      (gameUpdateAndRender tinyState 500).storage[gridIndex
          tinyState.worldDim.x ⟨0, 0⟩]? =
        some ⟨EntityKind.Generator, g, wrapProgress 0 +
          500 / tinyState.referenceCycleDuration * g⟩ ∧
      (gameUpdateAndRender tinyState 500).storage[gridIndex
          tinyState.worldDim.x ⟨0 + 1, 0⟩]? =
        some ⟨EntityKind.Motor, g * (5 / 10), wrapProgress 0 +
          500 / tinyState.referenceCycleDuration * (g * (5 / 10))⟩ ∧
      (gameUpdateAndRender tinyState 500).storage[gridIndex
          tinyState.worldDim.x ⟨0 + 2, 0⟩]? =
        some ⟨EntityKind.Producer, g * (5 / 10) * (8 / 10),
          wrapProgress 0 +
            500 / tinyState.referenceCycleDuration *
              (g * (5 / 10) * (8 / 10))⟩ ∧
      (cursorIsOver tinyState ⟨0, 0⟩ ∧ tinyState.cursor.leftButtonDown → g = 1) ∧
      (¬ (cursorIsOver tinyState ⟨0, 0⟩ ∧ tinyState.cursor.leftButtonDown) → g = 0) :=
  claim_C1 tinyState 500 0 0 ⟨EntityKind.Generator, 0, 0⟩ ⟨EntityKind.Motor, 0, 0⟩
    ⟨EntityKind.Producer, 0, 0⟩ (by with_unfolding_all decide)
    (by with_unfolding_all decide) (by with_unfolding_all decide)
    (by with_unfolding_all decide) rfl (by with_unfolding_all decide) rfl
    (by with_unfolding_all decide) rfl

/-- C3: Cycle accumulation step order: a visited occupied cell first has
its `cycleProgress` wrapped (repeatedly reduced by `1` while at least
`1`; values already below `1` are untouched) and only then advanced by
`deltaTime / referenceCycleDuration` scaled by the rate `r` the switch
just set; when `r = 0` the add is a no-op and the stored progress is
exactly the wrapped prior value. -/
theorem claim_C3 (gameState : GameState) (p : V2) (deltaTime : ℚ) (e : Entity)
    (hp : posIsInBounds p gameState.worldDim)
    (he : gameState.storage[gridIndex gameState.worldDim.x p]? = some e) :
    (∀ q : ℚ, wrapProgress q = if 1 ≤ q then wrapProgress (q - 1) else q) ∧
    (∀ q : ℚ, q < 1 → wrapProgress q = q) ∧
    ∃ r : ℚ,
      (tickStep deltaTime gameState p).storage[gridIndex gameState.worldDim.x p]? =
        some ⟨e.kind, r, wrapProgress e.cycleProgress +
          deltaTime / gameState.referenceCycleDuration * r⟩ ∧
      (r = 0 →
        (tickStep deltaTime gameState p).storage[gridIndex gameState.worldDim.x p]? =
          some ⟨e.kind, 0, wrapProgress e.cycleProgress⟩) := by
  refine ⟨fun q => wrapProgress_eq q, fun q hq => wrapProgress_of_lt_one hq, ?_⟩
  obtain ⟨r, hr, -, -⟩ := tickStep_visit gameState p deltaTime e hp he
  refine ⟨r, hr, ?_⟩
  intro h0
  rw [h0] at hr
  rw [hr, mul_zero, add_zero]

theorem claim_C3_witness :
    (∀ q : ℚ, wrapProgress q = if 1 ≤ q then wrapProgress (q - 1) else q) ∧
    (∀ q : ℚ, q < 1 → wrapProgress q = q) ∧
    ∃ r : ℚ,
      (tickStep 500 tinyState ⟨1, 0⟩).storage[gridIndex tinyState.worldDim.x
          ⟨1, 0⟩]? =
        some ⟨EntityKind.Motor, r, wrapProgress 0 +
          500 / tinyState.referenceCycleDuration * r⟩ ∧
      (r = 0 →
        (tickStep 500 tinyState ⟨1, 0⟩).storage[gridIndex tinyState.worldDim.x
            ⟨1, 0⟩]? =
          some ⟨EntityKind.Motor, 0, wrapProgress 0⟩) :=
  claim_C3 tinyState ⟨1, 0⟩ 500 ⟨EntityKind.Motor, 0, 0⟩
    (by with_unfolding_all decide) (by with_unfolding_all decide)

/-- C5: Position resolution: on a dense grid (storage of exactly
`width * height` entities), resolving a position yields a present entity
exactly when `0 ≤ x < width` and `0 ≤ y < height`; every out-of-bounds
position resolves to an absent entity. -/
theorem claim_C5 (gameState : GameState) (pos : V2)
    (hlen : gameState.storage.length =
      (gameState.worldDim.x * gameState.worldDim.y).toNat) :
    (∃ e, (getEntityHandleAtPos gameState pos).entity = some e) ↔
      posIsInBounds pos gameState.worldDim := by
  constructor
  · rintro ⟨e, he⟩
    exact inBounds_of_entity he
  · intro hp
    rw [getEntityHandleAtPos_of_inBounds hp]
    dsimp only
    obtain ⟨h1, h2, h3, h4⟩ := hp
    have hidx : gridIndex gameState.worldDim.x pos < gameState.storage.length := by
      rw [hlen]
      unfold gridIndex
      have hyw : (pos.y + 1) * gameState.worldDim.x ≤
          gameState.worldDim.y * gameState.worldDim.x :=
        mul_le_mul_of_nonneg_right (by omega) (by omega)
      have hprod : 0 ≤ pos.y * gameState.worldDim.x :=
        mul_nonneg (by omega) (by omega)
      have hlt : pos.y * gameState.worldDim.x + pos.x <
          gameState.worldDim.x * gameState.worldDim.y := by nlinarith
      omega
    exact ⟨_, List.getElem?_eq_getElem hidx⟩

theorem claim_C5_witness :
    ((∃ e, (getEntityHandleAtPos tinyState ⟨2, 0⟩).entity = some e) ↔
      posIsInBounds ⟨2, 0⟩ tinyState.worldDim) ∧
    ((∃ e, (getEntityHandleAtPos tinyState ⟨3, 0⟩).entity = some e) ↔
      posIsInBounds ⟨3, 0⟩ tinyState.worldDim) :=
  ⟨claim_C5 tinyState ⟨2, 0⟩ (by with_unfolding_all decide),
   claim_C5 tinyState ⟨3, 0⟩ (by with_unfolding_all decide)⟩

/-- C6: Traversal order: from its initial state the entity iterator
emits exactly the in-bounds positions in strict row-major order (`x`
fastest-varying, then `y`), and the filtered variant emits that same
sequence with the `None`-kind cells removed. -/
theorem claim_C6 (gameState : GameState)
    (hw : 0 < gameState.worldDim.x) (hh : 0 < gameState.worldDim.y) :
    iterToList gameState beginEntityIteration =
      rowMajor gameState.worldDim.x gameState.worldDim.y ∧
    iterToListNN gameState beginEntityIteration =
      (rowMajor gameState.worldDim.x gameState.worldDim.y).filter
        (fun p => ¬ entityIsNoneAt gameState p) ∧
    (∀ p : V2, p ∈ rowMajor gameState.worldDim.x gameState.worldDim.y ↔
      posIsInBounds p gameState.worldDim) ∧
    (rowMajor gameState.worldDim.x gameState.worldDim.y).Pairwise
      (fun a b => a.y < b.y ∨ (a.y = b.y ∧ a.x < b.x)) := by
  refine ⟨iterToList_begin gameState hw hh, ?_, ?_, pairwise_rowMajor _ _⟩
  · rw [iterToListNN_begin gameState hw hh]
    rfl
  · intro p
    exact mem_rowMajor

theorem claim_C6_witness :
    iterToList tinyState beginEntityIteration =
      rowMajor tinyState.worldDim.x tinyState.worldDim.y :=
  (claim_C6 tinyState (by with_unfolding_all decide)
    (by with_unfolding_all decide)).1

/-- C7: Totality: each loop of the update pass computes the same result
under any fuel at least its measure, so the wrap loop terminates for
every cycle progress value and the per-tick iteration terminates from
every state: `wrapProgress`, `nextNonNullEntity` and `tickLoop` are the
stable values of their loops. -/
theorem claim_C7 :
    (∀ (p : ℚ) (n : Nat), (⌊p⌋).toNat ≤ n → wrapAux n p = wrapProgress p) ∧
    (∀ (gameState : GameState) (it : EntityIterator) (n : Nat),
      iterMeasure gameState it ≤ n →
      nextNonNullAux gameState n it = nextNonNullEntity gameState it) ∧
    (∀ (deltaTime : ℚ) (gameState : GameState) (it : EntityIterator) (n : Nat),
      iterMeasure gameState it ≤ n →
      tickLoopAux deltaTime n gameState it = tickLoop gameState it deltaTime) := by
  refine ⟨?_, ?_, ?_⟩
  · intro p n hn
    exact wrapAux_congr n ((⌊p⌋).toNat) p hn le_rfl
  · intro gameState it n hn
    exact nextNonNullAux_congr n (iterMeasure gameState it) it hn le_rfl
  · intro deltaTime gameState it n hn
    exact tickLoopAux_congr deltaTime n (iterMeasure gameState it) gameState it hn le_rfl

theorem claim_C7_witness :
    wrapAux 5 (7 / 2) = wrapProgress (7 / 2) ∧
    nextNonNullAux tinyState 9 beginEntityIteration =
      nextNonNullEntity tinyState beginEntityIteration ∧
    tickLoopAux 500 9 tinyState beginEntityIteration =
      tickLoop tinyState beginEntityIteration 500 :=
  ⟨claim_C7.1 (7 / 2) 5 (by with_unfolding_all decide),
   claim_C7.2.1 tinyState beginEntityIteration 9 (by with_unfolding_all decide),
   claim_C7.2.2 500 tinyState beginEntityIteration 9 (by with_unfolding_all decide)⟩

/-- C2 (amended): after a tick, an occupied cell whose prior cycle
progress was non-negative stores progress
`wrapProgress prior + deltaTime / referenceCycleDuration * r` for the
rate `r` the tick assigned; the wrapped prior part lies in `[0, 1)`, so
with `r` non-negative the stored progress lies in
`[0, 1 + deltaTime / referenceCycleDuration * r)` — the spec's bound
`< 1` holds only when the added increment stays below the slack, not
after every tick. -/
theorem claim_C2 (gameState : GameState) (deltaTime : ℚ) (p : V2) (e : Entity)
    (hw : 0 < gameState.worldDim.x) (hh : 0 < gameState.worldDim.y)
    (hp : posIsInBounds p gameState.worldDim)
    (he : gameState.storage[gridIndex gameState.worldDim.x p]? = some e)
    (hkn : e.kind ≠ EntityKind.None)
    (hcp : 0 ≤ e.cycleProgress)
    (hdt : 0 ≤ deltaTime) (href : 0 < gameState.referenceCycleDuration) :
    ∃ (r : ℚ) (e2 : Entity),
      (gameUpdateAndRender gameState deltaTime).storage[gridIndex
          gameState.worldDim.x p]? = some e2 ∧
      e2.kind = e.kind ∧
      e2.cycleProgress = wrapProgress e.cycleProgress +
        deltaTime / gameState.referenceCycleDuration * r ∧
      0 ≤ wrapProgress e.cycleProgress ∧ wrapProgress e.cycleProgress < 1 ∧
      (0 ≤ r → 0 ≤ e2.cycleProgress ∧
        e2.cycleProgress < 1 + deltaTime / gameState.referenceCycleDuration * r) := by
  have hmem : p ∈ occupiedSeq gameState :=
    mem_occupiedSeq.mpr ⟨hp, not_entityIsNoneAt hp he hkn⟩
  obtain ⟨l1, l2, hdec, h1, h2⟩ := occupiedSeq_split hmem
  rw [gameUpdateAndRender_eq_fold_occupied gameState deltaTime hw hh, hdec]
  obtain ⟨r, hr⟩ := tickFold_cell gameState deltaTime l1 l2 p e hp he h1 h2
  obtain ⟨hb0, hb1⟩ := wrapProgress_bounds hcp
  refine ⟨r, _, hr, rfl, rfl, hb0, hb1, ?_⟩
  intro hrpos
  have hterm : 0 ≤ deltaTime / gameState.referenceCycleDuration * r :=
    mul_nonneg (div_nonneg hdt href.le) hrpos
  constructor
  · dsimp only
    linarith
  · dsimp only
    linarith

theorem claim_C2_witness :
    ∃ (r : ℚ) (e2 : Entity),
      (gameUpdateAndRender tinyState 1000).storage[gridIndex
          tinyState.worldDim.x ⟨0, 0⟩]? = some e2 ∧
      e2.kind = EntityKind.Generator ∧
      e2.cycleProgress = wrapProgress 0 +
        1000 / tinyState.referenceCycleDuration * r ∧
      0 ≤ wrapProgress (0 : ℚ) ∧ wrapProgress (0 : ℚ) < 1 ∧
      (0 ≤ r → 0 ≤ e2.cycleProgress ∧
        e2.cycleProgress < 1 + 1000 / tinyState.referenceCycleDuration * r) :=
  claim_C2 tinyState 1000 ⟨0, 0⟩ ⟨EntityKind.Generator, 0, 0⟩
    (by with_unfolding_all decide) (by with_unfolding_all decide)
    (by with_unfolding_all decide) (by with_unfolding_all decide)
    (by with_unfolding_all decide) (by with_unfolding_all decide)
    (by with_unfolding_all decide) (by with_unfolding_all decide)

theorem claim_C2_counterexample :
    ∃ e e2 : Entity,
      tinyState.storage[gridIndex tinyState.worldDim.x ⟨0, 0⟩]? = some e ∧
      e.kind ≠ EntityKind.None ∧
      0 ≤ e.cycleProgress ∧ e.cycleProgress < 1 ∧ 0 ≤ e.currentRate ∧
      (gameUpdateAndRender tinyState 1000).storage[gridIndex
          tinyState.worldDim.x ⟨0, 0⟩]? = some e2 ∧
      0 ≤ e2.currentRate ∧ ¬ e2.cycleProgress < 1 := by
  refine ⟨⟨EntityKind.Generator, 0, 0⟩, ⟨EntityKind.Generator, 1, 1⟩,
    ?_, ?_, ?_, ?_, ?_, ?_, ?_, ?_⟩ <;> with_unfolding_all decide

/-- C4: Ledger update: over one tick the ledger total grows by exactly
one contribution per occupied position holding a Producer, each equal to
that producer's same-tick rate scaled by
`deltaTime / referenceCycleDuration`, and by nothing for any other kind;
with non-negative producer rates, non-negative elapsed time and a
positive reference duration the total never decreases. -/
theorem claim_C4 (gameState : GameState) (deltaTime : ℚ)
    (hw : 0 < gameState.worldDim.x) (hh : 0 < gameState.worldDim.y)
    (hdt : 0 ≤ deltaTime) (href : 0 < gameState.referenceCycleDuration)
    (hrates : ∀ p ∈ occupiedSeq gameState,
      0 ≤ rateAt (gameUpdateAndRender gameState deltaTime)
        (gridIndex gameState.worldDim.x p)) :
    (gameUpdateAndRender gameState deltaTime).currentNumber =
      gameState.currentNumber +
        ((occupiedSeq gameState).map (fun p =>
          if kindAtPos gameState p = some EntityKind.Producer
          then rateAt (gameUpdateAndRender gameState deltaTime)
            (gridIndex gameState.worldDim.x p) * deltaTime /
            gameState.referenceCycleDuration
          else 0)).sum ∧
    gameState.currentNumber ≤ (gameUpdateAndRender gameState deltaTime).currentNumber := by
  have heq := gameUpdateAndRender_eq_fold_occupied gameState deltaTime hw hh
  rw [heq] at hrates ⊢
  have hpw : (occupiedSeq gameState).Pairwise (fun a b =>
      gridIndex gameState.worldDim.x a ≠ gridIndex gameState.worldDim.x b) :=
    (pairwise_gridIndex_occupiedSeq gameState).imp (fun h => Nat.ne_of_lt h)
  have hnum := tickFold_currentNumber deltaTime (occupiedSeq gameState) gameState hpw
  refine ⟨hnum, ?_⟩
  rw [hnum]
  have hsum : 0 ≤ ((occupiedSeq gameState).map (fun p =>
      if kindAtPos gameState p = some EntityKind.Producer
      then rateAt (tickFold gameState (occupiedSeq gameState) deltaTime)
        (gridIndex gameState.worldDim.x p) * deltaTime /
        gameState.referenceCycleDuration
      else 0)).sum := by
    refine List.sum_nonneg ?_
    intro t ht
    rw [List.mem_map] at ht
    obtain ⟨q, hq, rfl⟩ := ht
    by_cases hkq : kindAtPos gameState q = some EntityKind.Producer
    · rw [if_pos hkq]
      exact div_nonneg (mul_nonneg (hrates q hq) hdt) href.le
    · rw [if_neg hkq]
  linarith

theorem claim_C4_witness :
    (gameUpdateAndRender tinyState 500).currentNumber =
      tinyState.currentNumber +
        ((occupiedSeq tinyState).map (fun p =>
          if kindAtPos tinyState p = some EntityKind.Producer
          then rateAt (gameUpdateAndRender tinyState 500)
            (gridIndex tinyState.worldDim.x p) * 500 /
            tinyState.referenceCycleDuration
          else 0)).sum ∧
    tinyState.currentNumber ≤ (gameUpdateAndRender tinyState 500).currentNumber :=
  claim_C4 tinyState 500 (by with_unfolding_all decide)
    (by with_unfolding_all decide) (by with_unfolding_all decide)
    (by with_unfolding_all decide) (by with_unfolding_all decide)

/-- C8: Unknown-kind handling: an occupied cell whose kind is outside
the closed Generator/Motor/Producer set (and not `None`) makes the tick
record a non-fatal diagnostic carrying that kind; the entity keeps its
prior rate (the cycle accumulation still runs on it) and the pass
completes normally on the whole grid. -/
theorem claim_C8 (gameState : GameState) (deltaTime : ℚ) (p : V2) (e : Entity)
    (code : Int)
    (hw : 0 < gameState.worldDim.x) (hh : 0 < gameState.worldDim.y)
    (hp : posIsInBounds p gameState.worldDim)
    (he : gameState.storage[gridIndex gameState.worldDim.x p]? = some e)
    (hk : e.kind = EntityKind.Corrupt code) :
    (gameUpdateAndRender gameState deltaTime).storage[gridIndex
        gameState.worldDim.x p]? =
      some ⟨e.kind, e.currentRate, wrapProgress e.cycleProgress +
        deltaTime / gameState.referenceCycleDuration * e.currentRate⟩ ∧
    e.kind ∈ (gameUpdateAndRender gameState deltaTime).consoleErrors := by
  have hkn : e.kind ≠ EntityKind.None := by
    rw [hk]
    intro hc
    cases hc
  have hmem : p ∈ occupiedSeq gameState :=
    mem_occupiedSeq.mpr ⟨hp, not_entityIsNoneAt hp he hkn⟩
  obtain ⟨l1, l2, hdec, h1, h2⟩ := occupiedSeq_split hmem
  rw [gameUpdateAndRender_eq_fold_occupied gameState deltaTime hw hh]
  constructor
  · rw [hdec]
    rw [tickFold_getElem?_visit gameState l1 l2 p deltaTime h2]
    have hstable : (tickFold gameState l1 deltaTime).storage[gridIndex
        gameState.worldDim.x p]? = some e := by
      rw [tickFold_getElem?_stable deltaTime l1 gameState _ h1]
      exact he
    have hdx : (tickFold gameState l1 deltaTime).worldDim.x = gameState.worldDim.x := by
      rw [tickFold_worldDim]
    have hp2 : posIsInBounds p (tickFold gameState l1 deltaTime).worldDim := by
      rw [tickFold_worldDim]
      exact hp
    have he2 : (tickFold gameState l1 deltaTime).storage[gridIndex
        (tickFold gameState l1 deltaTime).worldDim.x p]? = some e := by
      rw [hdx]
      exact hstable
    have hcell := tickStep_at_corrupt (tickFold gameState l1 deltaTime) p deltaTime
      e code hp2 he2 hk
    rw [hdx] at hcell
    rw [hcell, tickFold_referenceCycleDuration]
  · rw [tickFold_consoleErrors]
    rw [List.mem_append]
    right
    rw [List.mem_flatMap]
    refine ⟨p, hmem, ?_⟩
    rw [kindAtPos_of_storage hp he]
    rw [hk]
    simp [switchDiagnostic]

theorem claim_C8_witness :
    (gameUpdateAndRender corruptState 250).storage[gridIndex
        corruptState.worldDim.x ⟨0, 0⟩]? =
      some ⟨EntityKind.Corrupt 7, 3 / 10, wrapProgress (5 / 2) +
        250 / corruptState.referenceCycleDuration * (3 / 10)⟩ ∧
    EntityKind.Corrupt 7 ∈ (gameUpdateAndRender corruptState 250).consoleErrors :=
  claim_C8 corruptState 250 ⟨0, 0⟩ ⟨EntityKind.Corrupt 7, 3 / 10, 5 / 2⟩ 7
    (by with_unfolding_all decide) (by with_unfolding_all decide)
    (by with_unfolding_all decide) (by with_unfolding_all decide) rfl

/-- C9 (amended): construction never rejects a configuration: for every
dimension pair and every reference cycle duration — non-positive values
included — `initGameState` builds the grid, allocating
`max (width * height) 0` entities and storing the given duration and
dimensions verbatim; no validation or fatal failure exists. -/
theorem claim_C9 :
    ∀ (worldDim : V2) (referenceCycleDuration : ℚ),
      (initGameState worldDim referenceCycleDuration).storage.length =
        (worldDim.x * worldDim.y).toNat ∧
      (initGameState worldDim referenceCycleDuration).worldDim = worldDim ∧
      (initGameState worldDim referenceCycleDuration).referenceCycleDuration =
        referenceCycleDuration := by
  intro worldDim referenceCycleDuration
  unfold initGameState
  refine ⟨?_, ?_, ?_⟩
  · simp [setKindAtPos_length]
  · simp [setKindAtPos_worldDim]
  · simp [setKindAtPos_referenceCycleDuration]

theorem claim_C9_counterexample :
    (initGameState ⟨10, 10⟩ (-1)).storage.length = 100 ∧
    (initGameState ⟨10, 10⟩ (-1)).referenceCycleDuration = -1 ∧
    ((-1 : ℚ) < 0) ∧
    (initGameState ⟨0, 8⟩ 1000).worldDim = ⟨0, 8⟩ := by
  refine ⟨?_, ?_, ?_, ?_⟩ <;> with_unfolding_all decide

/-- C10: Frame property of the tick: one update pass leaves the grid
dimensions, the configuration constants, the cursor, the storage size
and every entity's kind unchanged, and leaves every cell holding a
`None`-kind entity entirely untouched; only non-`None` cells' rate and
progress, the ledger and the diagnostics sink can change. -/
theorem claim_C10 (gameState : GameState) (deltaTime : ℚ)
    (hw : 0 < gameState.worldDim.x) (hh : 0 < gameState.worldDim.y) :
    (gameUpdateAndRender gameState deltaTime).worldDim = gameState.worldDim ∧
    (gameUpdateAndRender gameState deltaTime).referenceCycleDuration =
      gameState.referenceCycleDuration ∧
    (gameUpdateAndRender gameState deltaTime).cellDimPx = gameState.cellDimPx ∧
    (gameUpdateAndRender gameState deltaTime).cursor = gameState.cursor ∧
    (gameUpdateAndRender gameState deltaTime).storage.length =
      gameState.storage.length ∧
    (∀ j, kindAt (gameUpdateAndRender gameState deltaTime) j = kindAt gameState j) ∧
    (∀ (j : Nat) (e : Entity), gameState.storage[j]? = some e →
      e.kind = EntityKind.None →
      (gameUpdateAndRender gameState deltaTime).storage[j]? = some e) := by
  rw [gameUpdateAndRender_eq_fold_occupied gameState deltaTime hw hh]
  refine ⟨tickFold_worldDim deltaTime _ _, tickFold_referenceCycleDuration deltaTime _ _,
    tickFold_cellDimPx deltaTime _ _, tickFold_cursor deltaTime _ _,
    tickFold_length deltaTime _ _, fun j => kindAt_tickFold deltaTime _ _ j, ?_⟩
  intro j e he hk
  rw [tickFold_getElem?_stable deltaTime _ gameState j (occupied_avoids_none he hk)]
  exact he

theorem claim_C10_witness :
    (gameUpdateAndRender tinyState 500).worldDim = tinyState.worldDim ∧
    (gameUpdateAndRender tinyState 500).referenceCycleDuration =
      tinyState.referenceCycleDuration ∧
    (gameUpdateAndRender tinyState 500).cellDimPx = tinyState.cellDimPx ∧
    (gameUpdateAndRender tinyState 500).cursor = tinyState.cursor ∧
    (gameUpdateAndRender tinyState 500).storage.length = tinyState.storage.length ∧
    (∀ j, kindAt (gameUpdateAndRender tinyState 500) j = kindAt tinyState j) ∧
    (∀ (j : Nat) (e : Entity), tinyState.storage[j]? = some e →
      e.kind = EntityKind.None →
      (gameUpdateAndRender tinyState 500).storage[j]? = some e) :=
  claim_C10 tinyState 500 (by with_unfolding_all decide)
    (by with_unfolding_all decide)

end Ongrid
